import Mathlib

/-!
# Margin validation service (`backend/main.go`)

A shallow embedding of the two HTTP handlers of the service and of the data they work on.

Modelling conventions.

* A Go `float64` is an IEEE 754 binary64 value: a finite value (held as the rational number it
  denotes), an infinity or NaN.  Every arithmetic operation computes the exact result and
  rounds it to the nearest binary64 value, ties to even, overflowing to an infinity.  The sign
  of a zero is not represented; it cannot be observed in this program, whose only division has
  a non-zero divisor.
* A Go `int` is a machine integer of 32 or 64 bits.  The conversion `int(f)` truncates toward
  zero when the truncated value is representable; otherwise the Go language leaves the result
  implementation-dependent, which is modelled by a function supplied by the `Platform`.
* The Go language lets an implementation fuse `x*y + z` into one operation with a single
  rounding; whether it does is a property of the `Platform`.
* `json.NewDecoder(r.Body).Decode(&req)` is modelled by its result: the request carries
  `some req` when decoding succeeds and `none` when it returns an error.
* An `http.ResponseWriter` is modelled by the header map, the status code (200 unless
  `WriteHeader` is called) and the sequence of values written to the body.
* `decimalAssets` and `exactMargin` are not part of the program: they state the catalog and
  the margin formula in exact decimal arithmetic, for comparison with what the program
  computes.
-/

namespace Margin

/-! ## binary64 arithmetic -/

/-- A `float64` value. -/
inductive F64 where
  | fin (q : ℚ)
  | inf (neg : Bool)
  | nan
  deriving DecidableEq

/-- Rounding of a rational to the nearest integer, ties to the even one. -/
def roundHalfEven (x : ℚ) : Int :=
  if x - ⌊x⌋ < 1 / 2 then ⌊x⌋
  else if 1 / 2 < x - ⌊x⌋ then ⌊x⌋ + 1
  else if ⌊x⌋ % 2 = 0 then ⌊x⌋ else ⌊x⌋ + 1

/-- The binary exponent used to represent `q`: `⌊log₂ |q|⌋`, and `-1022` in the subnormal
range. -/
def expo (q : ℚ) : Int := max (Int.log 2 |q|) (-1022)

/-- The spacing of binary64 values around `q` (53 significant bits). -/
def ulp (q : ℚ) : ℚ := 2 ^ (expo q - 52)

/-- Rounding of an exact result to binary64: nearest value, ties to even; a result that rounds
to `2 ^ 1024` or beyond overflows. -/
def roundToDouble (q : ℚ) : F64 :=
  if 2 ^ 1024 ≤ |(roundHalfEven (q / ulp q) : ℚ) * ulp q| then F64.inf (decide (q < 0))
  else F64.fin ((roundHalfEven (q / ulp q) : ℚ) * ulp q)

/-- A decimal literal of the program or of a JSON document, converted to `float64`. -/
def lit (q : ℚ) : F64 := roundToDouble q

namespace F64

/-- The operator `*` on `float64`. -/
def mul : F64 → F64 → F64
  | fin x, fin y => roundToDouble (x * y)
  | fin x, inf s => if x = 0 then nan else inf (xor (decide (x < 0)) s)
  | inf s, fin y => if y = 0 then nan else inf (xor s (decide (y < 0)))
  | inf s, inf t => inf (xor s t)
  | _, _ => nan

/-- The operator `/` on `float64`. -/
def div : F64 → F64 → F64
  | fin x, fin y =>
    if y = 0 then (if x = 0 then nan else inf (decide (x < 0))) else roundToDouble (x / y)
  | fin _, inf _ => fin 0
  | inf s, fin y => inf (xor s (decide (y < 0)))
  | _, _ => nan

/-- The operator `+` on `float64`. -/
def add : F64 → F64 → F64
  | fin x, fin y => roundToDouble (x + y)
  | fin _, inf s => inf s
  | inf s, fin _ => inf s
  | inf s, inf t => if s = t then inf s else nan
  | _, _ => nan

/-- The fused multiply-add `x*y + z`: one rounding of the exact result. -/
def fma : F64 → F64 → F64 → F64
  | fin x, fin y, fin z => roundToDouble (x * y + z)
  | x, y, z => add (mul x y) z

/-- The operator `<` on `float64`. -/
def lt : F64 → F64 → Bool
  | fin x, fin y => decide (x < y)
  | fin _, inf t => !t
  | inf s, fin _ => s
  | inf s, inf t => s && !t
  | _, _ => false

/-- The operator `==` on `float64`. -/
def eq : F64 → F64 → Bool
  | fin x, fin y => decide (x = y)
  | inf s, inf t => decide (s = t)
  | _, _ => false

end F64

/-! ## Machine integers -/

/-- The parts of the Go implementation the handlers depend on: the width of `int`
(64 bits when `wide`, 32 bits otherwise), whether `x*y + z` is fused into one operation, and
the implementation-dependent result of converting a floating-point value that `int` cannot
represent. -/
structure Platform where
  wide : Bool
  fusesMulAdd : Bool
  convOutOfRange : F64 → Int

def Platform.intBits (P : Platform) : Nat := if P.wide then 64 else 32

def Platform.minInt (P : Platform) : Int := -(2 ^ (P.intBits - 1))

def Platform.maxInt (P : Platform) : Int := 2 ^ (P.intBits - 1) - 1

/-- A 64-bit x86 implementation: no fused multiply-add, and an unrepresentable conversion
yields the least `int`. -/
def amd64 : Platform :=
  { wide := true, fusesMulAdd := false, convOutOfRange := fun _ => -(2 ^ 63) }

/-- Truncation toward zero, the value part of the conversion `int(f)`. -/
def truncate (q : ℚ) : Int := if 0 ≤ q then ⌊q⌋ else ⌈q⌉

/-- The conversion `int(f)`. -/
def toInt (P : Platform) : F64 → Int
  | F64.fin q =>
    if P.minInt ≤ truncate q ∧ truncate q ≤ P.maxInt then truncate q
    else P.convOutOfRange (F64.fin q)
  | x => P.convOutOfRange x

/-- The conversion `float64(n)`. -/
def ofInt (n : Int) : F64 := roundToDouble (n : ℚ)

/-! ## Data model -/

structure AssetConfig where
  Symbol : String
  MarkPrice : F64
  ContractValue : F64
  AllowedLeverage : List F64
  deriving DecidableEq

structure ConfigResponse where
  Assets : List AssetConfig
  deriving DecidableEq

structure MarginRequest where
  Asset : String
  OrderSize : F64
  Side : String
  Leverage : F64
  MarginClient : F64
  deriving DecidableEq

structure MarginResponse where
  Status : String
  MarginRequired : F64
  deriving DecidableEq

structure ErrorResponse where
  Status : String
  Message : String
  MarginRequired : F64
  deriving DecidableEq

/-- The built-in catalog (`var assets`). -/
def assets : List AssetConfig :=
  [ { Symbol := "BTC", MarkPrice := F64.fin 62000, ContractValue := lit (1 / 1000),
      AllowedLeverage := [F64.fin 5, F64.fin 10, F64.fin 20, F64.fin 50, F64.fin 100] },
    { Symbol := "ETH", MarkPrice := F64.fin 3200, ContractValue := lit (1 / 100),
      AllowedLeverage := [F64.fin 5, F64.fin 10, F64.fin 25, F64.fin 50] } ]

/-- A catalog entry read as the specification reads it: the decimal literals of the source
taken exactly. -/
structure DecimalConfig where
  Symbol : String
  MarkPrice : ℚ
  ContractValue : ℚ
  AllowedLeverage : List ℚ
  deriving DecidableEq

/-- The catalog of the source in exact decimals. -/
def decimalAssets : List DecimalConfig :=
  [ { Symbol := "BTC", MarkPrice := 62000, ContractValue := 1 / 1000,
      AllowedLeverage := [5, 10, 20, 50, 100] },
    { Symbol := "ETH", MarkPrice := 3200, ContractValue := 1 / 100,
      AllowedLeverage := [5, 10, 25, 50] } ]

/-- The `float64` entry a decimal entry denotes in the program. -/
def DecimalConfig.toFloat (d : DecimalConfig) : AssetConfig :=
  { Symbol := d.Symbol, MarkPrice := lit d.MarkPrice, ContractValue := lit d.ContractValue,
    AllowedLeverage := d.AllowedLeverage.map lit }

/-- The margin of the specification, in exact arithmetic:
`markPrice * orderSize * contractValue / leverage`. -/
def exactMargin (d : DecimalConfig) (orderSize leverage : ℚ) : ℚ :=
  d.MarkPrice * orderSize * d.ContractValue / leverage

/-! ## HTTP plumbing -/

/-- What a handler writes to the response body. -/
inductive Payload where
  | line (s : String)
  | marginResponse (r : MarginResponse)
  | errorResponse (r : ErrorResponse)
  | configResponse (r : ConfigResponse)
  deriving DecidableEq

structure ResponseWriter where
  Header : List (String × String)
  Code : Nat
  Body : List Payload
  deriving DecidableEq

/-- The response writer a handler starts from. -/
def newWriter : ResponseWriter := { Header := [], Code := 200, Body := [] }

structure Request where
  Method : String
  Body : Option MarginRequest
  deriving DecidableEq

/-- `Header().Set(k, v)`: replaces the values associated with `k`. -/
def setHeader (w : ResponseWriter) (k v : String) : ResponseWriter :=
  { w with Header := w.Header.filter (fun p => p.1 != k) ++ [(k, v)] }

/-- `WriteHeader(code)`. -/
def writeHeader (w : ResponseWriter) (code : Nat) : ResponseWriter :=
  { w with Code := code }

/-- `json.NewEncoder(w).Encode(v)`. -/
def encode (w : ResponseWriter) (v : Payload) : ResponseWriter :=
  { w with Body := w.Body ++ [v] }

/-- `http.Error(w, msg, code)`: a plain-text reply with the given status code. -/
def httpError (w : ResponseWriter) (msg : String) (code : Nat) : ResponseWriter :=
  encode
    (writeHeader
      (setHeader (setHeader w "Content-Type" "text/plain; charset=utf-8")
        "X-Content-Type-Options" "nosniff")
      code)
    (Payload.line msg)

def StatusBadRequest : Nat := 400

def StatusMethodNotAllowed : Nat := 405

def enableCors (w : ResponseWriter) : ResponseWriter :=
  setHeader
    (setHeader (setHeader w "Access-Control-Allow-Origin" "*")
      "Access-Control-Allow-Methods" "POST, GET, OPTIONS, PUT, DELETE")
    "Access-Control-Allow-Headers"
    "Accept, Content-Type, Content-Length, Accept-Encoding, X-CSRF-Token, Authorization"

/-! ## Handlers -/

def configHandler (w : ResponseWriter) (r : Request) : ResponseWriter :=
  let w := enableCors w
  if r.Method == "OPTIONS" then w
  else
    let w := setHeader w "Content-Type" "application/json"
    encode w (Payload.configResponse { Assets := assets })

/-- The asset-selection loop of `validateHandler`: the first entry whose symbol equals `sym`. -/
def selectAsset : List AssetConfig → String → Option AssetConfig
  | [], _ => none
  | a :: rest, sym => if a.Symbol == sym then some a else selectAsset rest sym

/-- The leverage loop of `validateHandler`. -/
def validLeverage : List F64 → F64 → Bool
  | [], _ => false
  | l :: rest, lev => if F64.eq l lev then true else validLeverage rest lev

/-- The unrounded margin (`main.go` line 115). -/
def rawMargin (a : AssetConfig) (req : MarginRequest) : F64 :=
  F64.div (F64.mul (F64.mul a.MarkPrice req.OrderSize) a.ContractValue) req.Leverage

/-- The scaled margin `marginRequired*100+0.5` (`main.go` line 117). -/
def scaleCents (P : Platform) (marginRequired : F64) : F64 :=
  if P.fusesMulAdd then F64.fma marginRequired (F64.fin 100) (F64.fin (1 / 2))
  else F64.add (F64.mul marginRequired (F64.fin 100)) (F64.fin (1 / 2))

/-- The rounding statement (`main.go` line 117):
`float64(int(marginRequired*100+0.5)) / 100.0`. -/
def roundCents (P : Platform) (marginRequired : F64) : F64 :=
  F64.div (ofInt (toInt P (scaleCents P marginRequired))) (F64.fin 100)

def validateHandler (P : Platform) (w : ResponseWriter) (r : Request) : ResponseWriter :=
  let w := enableCors w
  if r.Method == "OPTIONS" then w
  else if r.Method != "POST" then httpError w "Method not allowed" StatusMethodNotAllowed
  else
    match r.Body with
    | none => httpError w "Invalid request body" StatusBadRequest
    | some req =>
      match selectAsset assets req.Asset with
      | none => httpError w "Asset not found" StatusBadRequest
      | some selectedAsset =>
        if !(validLeverage selectedAsset.AllowedLeverage req.Leverage) then
          httpError w "Invalid leverage" StatusBadRequest
        else
          let marginRequired := rawMargin selectedAsset req
          let marginRequired := roundCents P marginRequired
          let w := setHeader w "Content-Type" "application/json"
          if F64.lt req.MarginClient marginRequired then
            encode (writeHeader w StatusBadRequest)
              (Payload.errorResponse
                { Status := "error", Message := "Insufficient margin submitted",
                  MarginRequired := marginRequired })
          else
            encode w (Payload.marginResponse { Status := "ok", MarginRequired := marginRequired })

/-! ## Observations on a response -/

/-- The `margin_required` field carried by the response, when the body is exactly one JSON
margin or error record. -/
def marginRequiredOf (w : ResponseWriter) : Option F64 :=
  match w.Body with
  | [Payload.marginResponse r] => some r.MarginRequired
  | [Payload.errorResponse r] => some r.MarginRequired
  | _ => none

/-- The client-error reply "Asset not found". -/
def isAssetNotFound (w : ResponseWriter) : Prop :=
  w.Code = 400 ∧ w.Body = [Payload.line "Asset not found"]

/-- The client-error reply "Invalid leverage". -/
def isInvalidLeverage (w : ResponseWriter) : Prop :=
  w.Code = 400 ∧ w.Body = [Payload.line "Invalid leverage"]

/-- The rejection for insufficient margin, carrying the required margin `m`. -/
def isRejection (w : ResponseWriter) (m : F64) : Prop :=
  w.Code = 400 ∧
    w.Body = [Payload.errorResponse
      { Status := "error", Message := "Insufficient margin submitted", MarginRequired := m }]

/-- The acceptance, carrying the required margin `m`. -/
def isAcceptance (w : ResponseWriter) (m : F64) : Prop :=
  w.Code = 200 ∧ w.Body = [Payload.marginResponse { Status := "ok", MarginRequired := m }]

instance (w : ResponseWriter) : Decidable (isAssetNotFound w) := by
  unfold isAssetNotFound; infer_instance

instance (w : ResponseWriter) : Decidable (isInvalidLeverage w) := by
  unfold isInvalidLeverage; infer_instance

instance (w : ResponseWriter) (m : F64) : Decidable (isRejection w m) := by
  unfold isRejection; infer_instance

instance (w : ResponseWriter) (m : F64) : Decidable (isAcceptance w m) := by
  unfold isAcceptance; infer_instance

/-- A POST request whose body decodes to `req`. -/
def post (req : MarginRequest) : Request := { Method := "POST", Body := some req }

/-- The catalog entries, by name. -/
def btc : AssetConfig :=
  { Symbol := "BTC", MarkPrice := F64.fin 62000, ContractValue := lit (1 / 1000),
    AllowedLeverage := [F64.fin 5, F64.fin 10, F64.fin 20, F64.fin 50, F64.fin 100] }

def eth : AssetConfig :=
  { Symbol := "ETH", MarkPrice := F64.fin 3200, ContractValue := lit (1 / 100),
    AllowedLeverage := [F64.fin 5, F64.fin 10, F64.fin 25, F64.fin 50] }

/-! ## Evaluating the rounding -/

theorem roundHalfEven_eq_of_close {x : ℚ} {n : Int} (h : |x - n| < 1 / 2) :
    roundHalfEven x = n := by
  rw [abs_lt] at h
  obtain ⟨h1, h2⟩ := h
  rcases le_or_lt (n : ℚ) x with hle | hlt
  · have hf : ⌊x⌋ = n := by
      rw [Int.floor_eq_iff]
      constructor <;> linarith
    have hlt2 : x - ((⌊x⌋ : Int) : ℚ) < 1 / 2 := by
      rw [hf]
      linarith
    unfold roundHalfEven
    rw [if_pos hlt2, hf]
  · have hf : ⌊x⌋ = n - 1 := by
      rw [Int.floor_eq_iff]
      push_cast
      constructor <;> linarith
    have hcast : ((⌊x⌋ : Int) : ℚ) = (n : ℚ) - 1 := by
      rw [hf]
      push_cast
      ring
    have hge : ¬ x - ((⌊x⌋ : Int) : ℚ) < 1 / 2 := by
      rw [hcast]
      intro hc
      linarith
    have hgt : 1 / 2 < x - ((⌊x⌋ : Int) : ℚ) := by
      rw [hcast]
      linarith
    unfold roundHalfEven
    rw [if_neg hge, if_pos hgt, hf]
    ring

theorem expo_eq {q : ℚ} {e : Int} (he : -1022 ≤ e) (hlo : (2 : ℚ) ^ e ≤ |q|)
    (hhi : |q| < (2 : ℚ) ^ (e + 1)) : expo q = e := by
  have hpos : 0 < |q| := lt_of_lt_of_le (by positivity) hlo
  have h1 : e ≤ Int.log 2 |q| :=
    (Int.zpow_le_iff_le_log (by norm_num) hpos).mp (by exact_mod_cast hlo)
  have h2 : Int.log 2 |q| < e + 1 :=
    (Int.lt_zpow_iff_log_lt (by norm_num) hpos).mp (by exact_mod_cast hhi)
  have h3 : Int.log 2 |q| = e := by omega
  simp only [expo, h3]
  exact max_eq_left he

/-- The rounding of `q`, when the binary64 value `n * 2 ^ (e - 52)` of the binade of `q` lies
within less than half a unit in the last place of `q`. -/
theorem roundToDouble_eq {q : ℚ} (e n : Int) (he : -1022 ≤ e) (hlo : (2 : ℚ) ^ e ≤ |q|)
    (hhi : |q| < (2 : ℚ) ^ (e + 1))
    (hclose : |q - (n : ℚ) * (2 : ℚ) ^ (e - 52)| < (2 : ℚ) ^ (e - 53))
    (hfin : |(n : ℚ) * (2 : ℚ) ^ (e - 52)| < 2 ^ 1024) :
    roundToDouble q = F64.fin ((n : ℚ) * (2 : ℚ) ^ (e - 52)) := by
  have hu : ulp q = (2 : ℚ) ^ (e - 52) := by
    simp only [ulp, expo_eq he hlo hhi]
  have hupos : (0 : ℚ) < (2 : ℚ) ^ (e - 52) := by positivity
  have hhalf : (2 : ℚ) ^ (e - 53) = (2 : ℚ) ^ (e - 52) / 2 := by
    have : e - 52 = (e - 53) + 1 := by ring
    rw [this, zpow_add₀ (by norm_num : (2 : ℚ) ≠ 0)]
    simp
  have hr : roundHalfEven (q / (2 : ℚ) ^ (e - 52)) = n := by
    apply roundHalfEven_eq_of_close
    have : q / (2 : ℚ) ^ (e - 52) - (n : ℚ)
        = (q - (n : ℚ) * (2 : ℚ) ^ (e - 52)) / (2 : ℚ) ^ (e - 52) := by
      field_simp
      ring
    rw [this, abs_div, abs_of_pos hupos, div_lt_iff₀ hupos]
    rw [hhalf] at hclose
    linarith
  simp only [roundToDouble, hu, hr, if_neg (not_le.mpr hfin)]

/-- A value of the binary64 grid rounds to itself. -/
theorem roundToDouble_exact {q : ℚ} (e n : Int) (he : -1022 ≤ e) (hlo : (2 : ℚ) ^ e ≤ |q|)
    (hhi : |q| < (2 : ℚ) ^ (e + 1)) (hq : q = (n : ℚ) * (2 : ℚ) ^ (e - 52))
    (hfin : |q| < 2 ^ 1024) : roundToDouble q = F64.fin q := by
  have h := roundToDouble_eq e n he hlo hhi
    (by
      rw [← hq, sub_self, abs_zero]
      positivity)
    (by rw [← hq]; exact hfin)
  rw [h, ← hq]

theorem roundToDouble_zero : roundToDouble 0 = F64.fin 0 := by
  simp [roundToDouble, roundHalfEven]

theorem roundToDouble_of {q v : ℚ} (e n : Int) (he : -1022 ≤ e) (hlo : (2 : ℚ) ^ e ≤ |q|)
    (hhi : |q| < (2 : ℚ) ^ (e + 1)) (hv : (n : ℚ) * (2 : ℚ) ^ (e - 52) = v)
    (hclose : |q - v| < (2 : ℚ) ^ (e - 53)) (hfin : |v| < 2 ^ 1024) :
    roundToDouble q = F64.fin v := by
  subst hv
  exact roundToDouble_eq e n he hlo hhi hclose hfin

theorem F64.mul_fin (x y : ℚ) : F64.mul (F64.fin x) (F64.fin y) = roundToDouble (x * y) := rfl

theorem F64.add_fin (x y : ℚ) : F64.add (F64.fin x) (F64.fin y) = roundToDouble (x + y) := rfl

theorem F64.fma_fin (x y z : ℚ) :
    F64.fma (F64.fin x) (F64.fin y) (F64.fin z) = roundToDouble (x * y + z) := rfl

theorem F64.div_fin (x : ℚ) {y : ℚ} (hy : y ≠ 0) :
    F64.div (F64.fin x) (F64.fin y) = roundToDouble (x / y) := by
  simp [F64.div, hy]

theorem scaleCents_fused (P : Platform) (h : P.fusesMulAdd = true) (m : F64) :
    scaleCents P m = F64.fma m (F64.fin 100) (F64.fin (1 / 2)) := by
  unfold scaleCents
  rw [if_pos h]

theorem scaleCents_unfused (P : Platform) (h : P.fusesMulAdd = false) (m : F64) :
    scaleCents P m = F64.add (F64.mul m (F64.fin 100)) (F64.fin (1 / 2)) := by
  unfold scaleCents
  rw [h]
  rfl

theorem F64.lt_irrefl (x : F64) : F64.lt x x = false := by
  cases x with
  | fin q => simp [F64.lt]
  | inf s => cases s <;> rfl
  | nan => rfl

theorem F64.eq_iff {x y : F64} : F64.eq x y = true ↔ x = y ∧ x ≠ F64.nan := by
  cases x <;> cases y <;> simp [F64.eq]

/-! ## The conversion to `int` -/

theorem truncate_of_nonneg {q : ℚ} (h : 0 ≤ q) : truncate q = ⌊q⌋ := by
  simp [truncate, h]

theorem truncate_of_neg {q : ℚ} (h : q < 0) : truncate q = ⌈q⌉ := by
  simp [truncate, not_le.mpr h]

/-- Every `int` holds the 32-bit range. -/
theorem representable_of_small (P : Platform) {n : Int} (hlo : -(2 ^ 31) ≤ n)
    (hhi : n ≤ 2 ^ 31 - 1) : P.minInt ≤ n ∧ n ≤ P.maxInt := by
  cases hw : P.wide <;>
    simp only [Platform.minInt, Platform.maxInt, Platform.intBits, hw] <;>
    norm_num <;> omega

theorem toInt_of_representable (P : Platform) {q : ℚ}
    (h : P.minInt ≤ truncate q ∧ truncate q ≤ P.maxInt) :
    toInt P (F64.fin q) = truncate q := by
  simp [toInt, h]

theorem toInt_of_too_large (P : Platform) {q : ℚ} (h : P.maxInt < truncate q) :
    toInt P (F64.fin q) = P.convOutOfRange (F64.fin q) := by
  simp [toInt, not_le.mpr h]

/-! ## Lemmas on the two loops -/

theorem selectAsset_eq_none {l : List AssetConfig} {sym : String} :
    selectAsset l sym = none ↔ ∀ a ∈ l, a.Symbol ≠ sym := by
  induction l with
  | nil => simp [selectAsset]
  | cons b rest ih =>
    by_cases h : b.Symbol = sym
    · simp [selectAsset, h]
    · simp [selectAsset, h, ih]

theorem selectAsset_eq_some {l : List AssetConfig} {sym : String} {a : AssetConfig}
    (h : selectAsset l sym = some a) : a ∈ l ∧ a.Symbol = sym := by
  induction l with
  | nil => simp [selectAsset] at h
  | cons b rest ih =>
    by_cases hb : b.Symbol = sym
    · simp [selectAsset, hb] at h
      subst h
      exact ⟨List.mem_cons_self _ _, hb⟩
    · simp [selectAsset, hb] at h
      exact ⟨List.mem_cons_of_mem _ (ih h).1, (ih h).2⟩

/-- The leverage loop succeeds exactly when some element compares equal (`==`) to the
requested leverage. -/
theorem validLeverage_iff_exists {l : List F64} {lev : F64} :
    validLeverage l lev = true ↔ ∃ x ∈ l, F64.eq x lev = true := by
  induction l with
  | nil => simp [validLeverage]
  | cons x rest ih =>
    cases hx : F64.eq x lev
    · simp [validLeverage, hx, ih]
    · simp [validLeverage, hx]

/-- On a list without NaN the leverage loop decides membership. -/
theorem validLeverage_iff {l : List F64} {lev : F64} (hl : ∀ x ∈ l, x ≠ F64.nan) :
    validLeverage l lev = true ↔ lev ∈ l := by
  rw [validLeverage_iff_exists]
  constructor
  · rintro ⟨x, hx, he⟩
    rw [F64.eq_iff] at he
    rw [← he.1]
    exact hx
  · intro h
    exact ⟨lev, h, F64.eq_iff.mpr ⟨rfl, hl lev h⟩⟩

theorem assets_eq : assets = [btc, eth] := rfl

theorem mem_assets {a : AssetConfig} (ha : a ∈ assets) : a = btc ∨ a = eth := by
  rw [assets_eq] at ha
  simpa using ha

theorem btc_mem : btc ∈ assets := by simp [assets_eq]

theorem eth_mem : eth ∈ assets := by simp [assets_eq]

/-- In the built-in catalog the entry with a given symbol is the one the loop selects. -/
theorem selectAsset_assets {a : AssetConfig} {sym : String} (ha : a ∈ assets)
    (hs : a.Symbol = sym) : selectAsset assets sym = some a := by
  rcases mem_assets ha with rfl | rfl
  · subst hs
    simp [assets_eq, selectAsset, btc]
  · subst hs
    simp [assets_eq, selectAsset, btc, eth]

theorem mem_allowed_btc {l : F64} (h : l ∈ btc.AllowedLeverage) :
    l = F64.fin 5 ∨ l = F64.fin 10 ∨ l = F64.fin 20 ∨ l = F64.fin 50 ∨ l = F64.fin 100 := by
  simpa [btc] using h

theorem mem_allowed_eth {l : F64} (h : l ∈ eth.AllowedLeverage) :
    l = F64.fin 5 ∨ l = F64.fin 10 ∨ l = F64.fin 25 ∨ l = F64.fin 50 := by
  simpa [eth] using h

/-- An allowed leverage of a catalog entry is a finite, strictly positive value. -/
theorem allowed_leverage_pos {a : AssetConfig} {l : F64} (ha : a ∈ assets)
    (hl : l ∈ a.AllowedLeverage) : ∃ q : ℚ, l = F64.fin q ∧ 0 < q := by
  rcases mem_assets ha with rfl | rfl
  · rcases mem_allowed_btc hl with rfl | rfl | rfl | rfl | rfl
    · exact ⟨5, rfl, by norm_num⟩
    · exact ⟨10, rfl, by norm_num⟩
    · exact ⟨20, rfl, by norm_num⟩
    · exact ⟨50, rfl, by norm_num⟩
    · exact ⟨100, rfl, by norm_num⟩
  · rcases mem_allowed_eth hl with rfl | rfl | rfl | rfl
    · exact ⟨5, rfl, by norm_num⟩
    · exact ⟨10, rfl, by norm_num⟩
    · exact ⟨25, rfl, by norm_num⟩
    · exact ⟨50, rfl, by norm_num⟩

theorem allowed_leverage_ne_nan {a : AssetConfig} (ha : a ∈ assets) :
    ∀ l ∈ a.AllowedLeverage, l ≠ F64.nan := by
  intro l hl
  obtain ⟨q, hq, _⟩ := allowed_leverage_pos ha hl
  rw [hq]
  simp

theorem allowed_leverage_ne_zero {a : AssetConfig} {l : F64} (ha : a ∈ assets)
    (hl : l ∈ a.AllowedLeverage) : l ≠ F64.fin 0 := by
  obtain ⟨q, hq, hpos⟩ := allowed_leverage_pos ha hl
  rw [hq]
  intro h
  injection h with h
  exact absurd h (ne_of_gt hpos)

/-- A request that passes the two validation steps, in the terms of the catalog. -/
theorem passes_validation {req : MarginRequest} {a : AssetConfig} (ha : a ∈ assets)
    (hs : a.Symbol = req.Asset) (hl : req.Leverage ∈ a.AllowedLeverage) :
    selectAsset assets req.Asset = some a ∧
      validLeverage a.AllowedLeverage req.Leverage = true :=
  ⟨selectAsset_assets ha hs, (validLeverage_iff (allowed_leverage_ne_nan ha)).mpr hl⟩

/-! ## The four outcomes of `validateHandler` on a decoded POST request -/

theorem validateHandler_unknown (P : Platform) (req : MarginRequest)
    (h : selectAsset assets req.Asset = none) :
    validateHandler P newWriter (post req)
      = httpError (enableCors newWriter) "Asset not found" StatusBadRequest := by
  simp [validateHandler, post, h]

theorem validateHandler_badLeverage (P : Platform) (req : MarginRequest) (a : AssetConfig)
    (h : selectAsset assets req.Asset = some a)
    (hl : validLeverage a.AllowedLeverage req.Leverage = false) :
    validateHandler P newWriter (post req)
      = httpError (enableCors newWriter) "Invalid leverage" StatusBadRequest := by
  simp [validateHandler, post, h, hl]

theorem validateHandler_insufficient (P : Platform) (req : MarginRequest) (a : AssetConfig)
    (h : selectAsset assets req.Asset = some a)
    (hl : validLeverage a.AllowedLeverage req.Leverage = true)
    (hm : F64.lt req.MarginClient (roundCents P (rawMargin a req)) = true) :
    validateHandler P newWriter (post req)
      = encode
          (writeHeader (setHeader (enableCors newWriter) "Content-Type" "application/json")
            StatusBadRequest)
          (Payload.errorResponse
            { Status := "error", Message := "Insufficient margin submitted",
              MarginRequired := roundCents P (rawMargin a req) }) := by
  simp [validateHandler, post, h, hl, hm]

theorem validateHandler_sufficient (P : Platform) (req : MarginRequest) (a : AssetConfig)
    (h : selectAsset assets req.Asset = some a)
    (hl : validLeverage a.AllowedLeverage req.Leverage = true)
    (hm : F64.lt req.MarginClient (roundCents P (rawMargin a req)) = false) :
    validateHandler P newWriter (post req)
      = encode (setHeader (enableCors newWriter) "Content-Type" "application/json")
          (Payload.marginResponse
            { Status := "ok", MarginRequired := roundCents P (rawMargin a req) }) := by
  simp [validateHandler, post, h, hl, hm]

theorem isRejection_insufficient (P : Platform) (req : MarginRequest) (a : AssetConfig)
    (h : selectAsset assets req.Asset = some a)
    (hl : validLeverage a.AllowedLeverage req.Leverage = true)
    (hm : F64.lt req.MarginClient (roundCents P (rawMargin a req)) = true) :
    isRejection (validateHandler P newWriter (post req)) (roundCents P (rawMargin a req)) := by
  rw [validateHandler_insufficient P req a h hl hm]
  exact ⟨rfl, rfl⟩

theorem isAcceptance_sufficient (P : Platform) (req : MarginRequest) (a : AssetConfig)
    (h : selectAsset assets req.Asset = some a)
    (hl : validLeverage a.AllowedLeverage req.Leverage = true)
    (hm : F64.lt req.MarginClient (roundCents P (rawMargin a req)) = false) :
    isAcceptance (validateHandler P newWriter (post req)) (roundCents P (rawMargin a req)) := by
  rw [validateHandler_sufficient P req a h hl hm]
  exact ⟨rfl, rfl⟩

/-- A request that passes both validation steps is answered with a JSON record carrying the
rounded margin. -/
theorem validateHandler_valid (P : Platform) (req : MarginRequest) (a : AssetConfig)
    (h : selectAsset assets req.Asset = some a)
    (hl : validLeverage a.AllowedLeverage req.Leverage = true) :
    isRejection (validateHandler P newWriter (post req)) (roundCents P (rawMargin a req)) ∨
      isAcceptance (validateHandler P newWriter (post req)) (roundCents P (rawMargin a req)) := by
  cases hm : F64.lt req.MarginClient (roundCents P (rawMargin a req))
  · exact Or.inr (isAcceptance_sufficient P req a h hl hm)
  · exact Or.inl (isRejection_insufficient P req a h hl hm)

theorem marginRequiredOf_of_isRejection {w : ResponseWriter} {m : F64} (h : isRejection w m) :
    marginRequiredOf w = some m := by
  simp [marginRequiredOf, h.2]

theorem marginRequiredOf_of_isAcceptance {w : ResponseWriter} {m : F64} (h : isAcceptance w m) :
    marginRequiredOf w = some m := by
  simp [marginRequiredOf, h.2]

theorem marginRequiredOf_valid (P : Platform) (req : MarginRequest) (a : AssetConfig)
    (h : selectAsset assets req.Asset = some a)
    (hl : validLeverage a.AllowedLeverage req.Leverage = true) :
    marginRequiredOf (validateHandler P newWriter (post req))
      = some (roundCents P (rawMargin a req)) := by
  rcases validateHandler_valid P req a h hl with h1 | h1
  · exact marginRequiredOf_of_isRejection h1
  · exact marginRequiredOf_of_isAcceptance h1

theorem marginRequiredOf_httpError (msg : String) (code : Nat) :
    marginRequiredOf (httpError (enableCors newWriter) msg code) = none := rfl

theorem httpError_body (msg : String) (code : Nat) :
    (httpError (enableCors newWriter) msg code).Body = [Payload.line msg] := rfl

/-! ## Rounding error -/

theorem roundHalfEven_error (t : ℚ) : |((roundHalfEven t : Int) : ℚ) - t| ≤ 1 / 2 := by
  have h1 : ((⌊t⌋ : Int) : ℚ) ≤ t := Int.floor_le t
  have h2 : t < ((⌊t⌋ : Int) : ℚ) + 1 := Int.lt_floor_add_one t
  unfold roundHalfEven
  split_ifs with ha hb hc
  · rw [abs_le]
    constructor <;> linarith
  · rw [abs_le]
    push_cast
    constructor <;> linarith
  · rw [abs_le]
    constructor <;> linarith
  · rw [abs_le]
    push_cast
    constructor <;> linarith

theorem roundHalfEven_nonneg {t : ℚ} (h : 0 ≤ t) : 0 ≤ roundHalfEven t := by
  have h1 : 0 ≤ ⌊t⌋ := Int.floor_nonneg.mpr h
  unfold roundHalfEven
  split_ifs <;> omega

theorem ulp_pos (q : ℚ) : 0 < ulp q := by
  unfold ulp
  positivity

theorem half_ulp_le (q : ℚ) (hq : q ≠ 0) : ulp q / 2 ≤ |q| / 2 ^ 53 + 1 / 2 ^ 1075 := by
  have hpos : 0 < |q| := abs_pos.mpr hq
  unfold ulp expo
  rcases le_total (Int.log 2 |q|) (-1022) with h | h
  · rw [max_eq_right h]
    have : (2 : ℚ) ^ ((-1022 : Int) - 52) / 2 = 1 / 2 ^ 1075 := by norm_num
    rw [this]
    have : 0 ≤ |q| / 2 ^ 53 := by positivity
    linarith
  · rw [max_eq_left h]
    have hle : ((2 : ℕ) : ℚ) ^ Int.log 2 |q| ≤ |q| := Int.zpow_log_le_self (by norm_num) hpos
    have hsplit : (2 : ℚ) ^ (Int.log 2 |q| - 52) / 2 = (2 : ℚ) ^ Int.log 2 |q| / 2 ^ 53 := by
      rw [zpow_sub₀ (by norm_num : (2 : ℚ) ≠ 0)]
      norm_num
      ring
    rw [hsplit]
    have h3 : (2 : ℚ) ^ Int.log 2 |q| / 2 ^ 53 ≤ |q| / 2 ^ 53 := by
      apply div_le_div_of_nonneg_right _ (by positivity)
      exact_mod_cast hle
    have : (0 : ℚ) ≤ 1 / 2 ^ 1075 := by positivity
    linarith

/-- The rounding error of a finite result: at most half a unit in the last place. -/
theorem roundToDouble_error {q v : ℚ} (h : roundToDouble q = F64.fin v) :
    |v - q| ≤ |q| / 2 ^ 53 + 1 / 2 ^ 1075 := by
  by_cases hq : q = 0
  · subst hq
    rw [roundToDouble_zero] at h
    injection h with h
    subst h
    simp
  · unfold roundToDouble at h
    split_ifs at h
    injection h with h
    have hu := ulp_pos q
    have he := roundHalfEven_error (q / ulp q)
    have hv : v - q = (((roundHalfEven (q / ulp q) : Int) : ℚ) - q / ulp q) * ulp q := by
      rw [← h]
      field_simp
    rw [hv, abs_mul, abs_of_pos hu]
    have : |((roundHalfEven (q / ulp q) : Int) : ℚ) - q / ulp q| * ulp q ≤ 1 / 2 * ulp q :=
      mul_le_mul_of_nonneg_right he (le_of_lt hu)
    have h2 := half_ulp_le q hq
    linarith

theorem roundToDouble_nonneg {q v : ℚ} (hq : 0 ≤ q) (h : roundToDouble q = F64.fin v) :
    0 ≤ v := by
  unfold roundToDouble at h
  split_ifs at h
  injection h with h
  rw [← h]
  have hu := ulp_pos q
  have : 0 ≤ roundHalfEven (q / ulp q) := roundHalfEven_nonneg (div_nonneg hq (le_of_lt hu))
  have : (0 : ℚ) ≤ ((roundHalfEven (q / ulp q) : Int) : ℚ) := by exact_mod_cast this
  positivity

theorem roundToDouble_ne_nan (q : ℚ) : roundToDouble q ≠ F64.nan := by
  unfold roundToDouble
  split_ifs <;> simp

theorem roundToDouble_error_bounds {q v : ℚ} (hq : 0 ≤ q) (h : roundToDouble q = F64.fin v) :
    0 ≤ v ∧ v ≤ q + q / 2 ^ 53 + 1 / 2 ^ 1075 ∧ q - q / 2 ^ 53 - 1 / 2 ^ 1075 ≤ v := by
  have he := roundToDouble_error h
  rw [abs_of_nonneg hq, abs_le] at he
  refine ⟨roundToDouble_nonneg hq h, ?_, ?_⟩ <;> linarith [he.1, he.2]

/-- A result of moderate size does not overflow. -/
theorem roundToDouble_finite {q : ℚ} (hq : |q| ≤ 2 ^ 1000) : ∃ v, roundToDouble q = F64.fin v := by
  by_cases h0 : q = 0
  · exact ⟨0, by rw [h0, roundToDouble_zero]⟩
  · unfold roundToDouble
    have hu := ulp_pos q
    have he := roundHalfEven_error (q / ulp q)
    have h2 := half_ulp_le q h0
    have hv : ((roundHalfEven (q / ulp q) : Int) : ℚ) * ulp q
        = q + (((roundHalfEven (q / ulp q) : Int) : ℚ) - q / ulp q) * ulp q := by
      field_simp
    have hb : |(((roundHalfEven (q / ulp q) : Int) : ℚ) - q / ulp q) * ulp q| ≤ 1 / 2 * ulp q := by
      rw [abs_mul, abs_of_pos hu]
      exact mul_le_mul_of_nonneg_right he (le_of_lt hu)
    have hlt : ¬ (2 : ℚ) ^ 1024 ≤ |((roundHalfEven (q / ulp q) : Int) : ℚ) * ulp q| := by
      rw [not_le, hv]
      have habs := abs_add q ((((roundHalfEven (q / ulp q) : Int) : ℚ) - q / ulp q) * ulp q)
      have h3 : |q| / 2 ^ 53 ≤ |q| := by
        apply div_le_self (abs_nonneg q)
        norm_num
      have h4 : (1 : ℚ) / 2 ^ 1075 ≤ 1 := by
        apply div_le_self (by norm_num)
        exact one_le_pow₀ (by norm_num)
      have h5 : (2 : ℚ) ^ 1000 + 2 ^ 1000 + 1 < 2 ^ 1024 := by norm_num
      linarith
    rw [if_neg hlt]
    exact ⟨_, rfl⟩

theorem F64.mul_inf_fin (s : Bool) {y : ℚ} (hy : y ≠ 0) :
    F64.mul (F64.inf s) (F64.fin y) = F64.inf (xor s (decide (y < 0))) := by
  simp [F64.mul, hy]

theorem scaleCents_inf (P : Platform) (s : Bool) :
    scaleCents P (F64.inf s) = F64.inf (xor s (decide ((100 : ℚ) < 0))) := by
  have h100 : (100 : ℚ) ≠ 0 := by norm_num
  cases hf : P.fusesMulAdd
  · rw [scaleCents_unfused P hf, F64.mul_inf_fin s h100]
    rfl
  · rw [scaleCents_fused P hf]
    show F64.add (F64.mul (F64.inf s) (F64.fin 100)) (F64.fin (1 / 2)) = _
    rw [F64.mul_inf_fin s h100]
    rfl

theorem scaleCents_nan (P : Platform) : scaleCents P F64.nan = F64.nan := by
  cases hf : P.fusesMulAdd
  · rw [scaleCents_unfused P hf]
    rfl
  · rw [scaleCents_fused P hf]
    rfl

theorem scaleCents_finite (P : Platform) {x : F64} {y : ℚ}
    (hy : scaleCents P x = F64.fin y) : ∃ m : ℚ, x = F64.fin m := by
  cases x with
  | fin m => exact ⟨m, rfl⟩
  | inf s =>
    rw [scaleCents_inf] at hy
    exact absurd hy (by simp)
  | nan =>
    rw [scaleCents_nan] at hy
    exact absurd hy (by simp)

/-- The scaled margin of a non-negative margin, with the rounding errors of the product
(none when the platform fuses it with the sum) and of the sum. -/
theorem scaleCents_bounds (P : Platform) {m y : ℚ} (hm : 0 ≤ m)
    (hy : scaleCents P (F64.fin m) = F64.fin y) :
    ∃ s : ℚ,
      (0 ≤ s ∧ s ≤ m * 100 + m * 100 / 2 ^ 53 + 1 / 2 ^ 1075 ∧
        m * 100 - m * 100 / 2 ^ 53 - 1 / 2 ^ 1075 ≤ s) ∧
      (0 ≤ y ∧ y ≤ s + 1 / 2 + (s + 1 / 2) / 2 ^ 53 + 1 / 2 ^ 1075 ∧
        s + 1 / 2 - (s + 1 / 2) / 2 ^ 53 - 1 / 2 ^ 1075 ≤ y) := by
  have hm100 : 0 ≤ m * 100 := mul_nonneg hm (by norm_num)
  cases hf : P.fusesMulAdd
  · rw [scaleCents_unfused P hf, F64.mul_fin] at hy
    cases h4 : roundToDouble (m * 100) with
    | nan => exact absurd h4 (roundToDouble_ne_nan _)
    | inf s4 =>
      rw [h4] at hy
      simp [F64.add] at hy
    | fin s =>
      rw [h4, F64.add_fin] at hy
      have b4 := roundToDouble_error_bounds hm100 h4
      exact ⟨s, b4, roundToDouble_error_bounds (add_nonneg b4.1 (by norm_num)) hy⟩
  · rw [scaleCents_fused P hf, F64.fma_fin] at hy
    have b5 := roundToDouble_error_bounds (add_nonneg hm100 (by norm_num)) hy
    have h1 : 0 ≤ m * 100 / 2 ^ 53 := by positivity
    have h2 : (0 : ℚ) ≤ 1 / 2 ^ 1075 := by positivity
    exact ⟨m * 100, ⟨hm100, by linarith, by linarith⟩, b5⟩

theorem finite_chain {M cd L o m : ℚ} (hcd : cd ≠ 0) (hL : L ≠ 0)
    (hm : F64.div (F64.mul (F64.mul (F64.fin M) (lit o)) (F64.fin cd)) (F64.fin L)
      = F64.fin m) :
    ∃ od p1 p2 : ℚ, lit o = F64.fin od ∧ roundToDouble (M * od) = F64.fin p1 ∧
      roundToDouble (p1 * cd) = F64.fin p2 ∧ roundToDouble (p2 / L) = F64.fin m := by
  cases h0 : lit o with
  | nan => exact absurd h0 (roundToDouble_ne_nan o)
  | inf s0 =>
    rw [h0] at hm
    by_cases hM : M = 0 <;> simp [F64.mul, F64.div, hM, hcd] at hm
  | fin od =>
    rw [h0, F64.mul_fin] at hm
    cases h1 : roundToDouble (M * od) with
    | nan => exact absurd h1 (roundToDouble_ne_nan _)
    | inf s1 =>
      rw [h1] at hm
      simp [F64.mul, F64.div, hcd] at hm
    | fin p1 =>
      rw [h1, F64.mul_fin] at hm
      cases h2 : roundToDouble (p1 * cd) with
      | nan => exact absurd h2 (roundToDouble_ne_nan _)
      | inf s2 =>
        rw [h2] at hm
        simp [F64.div] at hm
      | fin p2 =>
        rw [h2, F64.div_fin _ hL] at hm
        exact ⟨od, p1, p2, rfl, h1, h2, hm⟩

theorem maxInt_le (P : Platform) : P.maxInt ≤ 2 ^ 63 - 1 := by
  cases hw : P.wide <;> simp [Platform.maxInt, Platform.intBits, hw]

theorem minInt_le (P : Platform) : P.minInt ≤ 0 := by
  cases hw : P.wide <;> simp [Platform.minInt, Platform.intBits, hw]

/-- The values computed along the margin computation of a finite, in-range request with a
non-negative order size, each with its rounding error. -/
theorem chain_bounds (P : Platform) {M cd L o y : ℚ} (hM : 0 ≤ M) (hcd : 0 < cd) (hL : 0 < L)
    (ho : 0 ≤ o)
    (hy : scaleCents P
        (F64.div (F64.mul (F64.mul (F64.fin M) (lit o)) (F64.fin cd)) (F64.fin L))
      = F64.fin y)
    (hr : ⌊y⌋ ≤ P.maxInt) :
    ∃ od p1 p2 m s f r : ℚ,
      roundCents P (F64.div (F64.mul (F64.mul (F64.fin M) (lit o)) (F64.fin cd)) (F64.fin L))
        = F64.fin r ∧
      (0 ≤ od ∧ od ≤ o + o / 2 ^ 53 + 1 / 2 ^ 1075 ∧ o - o / 2 ^ 53 - 1 / 2 ^ 1075 ≤ od) ∧
      (0 ≤ p1 ∧ p1 ≤ M * od + M * od / 2 ^ 53 + 1 / 2 ^ 1075 ∧
        M * od - M * od / 2 ^ 53 - 1 / 2 ^ 1075 ≤ p1) ∧
      (0 ≤ p2 ∧ p2 ≤ p1 * cd + p1 * cd / 2 ^ 53 + 1 / 2 ^ 1075 ∧
        p1 * cd - p1 * cd / 2 ^ 53 - 1 / 2 ^ 1075 ≤ p2) ∧
      (0 ≤ m ∧ m ≤ p2 / L + p2 / L / 2 ^ 53 + 1 / 2 ^ 1075 ∧
        p2 / L - p2 / L / 2 ^ 53 - 1 / 2 ^ 1075 ≤ m) ∧
      (0 ≤ s ∧ s ≤ m * 100 + m * 100 / 2 ^ 53 + 1 / 2 ^ 1075 ∧
        m * 100 - m * 100 / 2 ^ 53 - 1 / 2 ^ 1075 ≤ s) ∧
      (0 ≤ y ∧ y ≤ s + 1 / 2 + (s + 1 / 2) / 2 ^ 53 + 1 / 2 ^ 1075 ∧
        s + 1 / 2 - (s + 1 / 2) / 2 ^ 53 - 1 / 2 ^ 1075 ≤ y) ∧
      (0 ≤ ((⌊y⌋ : Int) : ℚ) ∧ ((⌊y⌋ : Int) : ℚ) ≤ y ∧ y < ((⌊y⌋ : Int) : ℚ) + 1) ∧
      (0 ≤ f ∧ f ≤ ((⌊y⌋ : Int) : ℚ) + ((⌊y⌋ : Int) : ℚ) / 2 ^ 53 + 1 / 2 ^ 1075 ∧
        ((⌊y⌋ : Int) : ℚ) - ((⌊y⌋ : Int) : ℚ) / 2 ^ 53 - 1 / 2 ^ 1075 ≤ f) ∧
      (0 ≤ r ∧ r ≤ f / 100 + f / 100 / 2 ^ 53 + 1 / 2 ^ 1075 ∧
        f / 100 - f / 100 / 2 ^ 53 - 1 / 2 ^ 1075 ≤ r) := by
  obtain ⟨m, hm⟩ := scaleCents_finite P hy
  obtain ⟨od, p1, p2, h0, h1, h2, h3⟩ := finite_chain (ne_of_gt hcd) (ne_of_gt hL) hm
  have b0 := roundToDouble_error_bounds ho h0
  have b1 := roundToDouble_error_bounds (mul_nonneg hM b0.1) h1
  have b2 := roundToDouble_error_bounds (mul_nonneg b1.1 (le_of_lt hcd)) h2
  have b3 := roundToDouble_error_bounds (div_nonneg b2.1 (le_of_lt hL)) h3
  have hy2 : scaleCents P (F64.fin m) = F64.fin y := by
    rw [← hm]
    exact hy
  obtain ⟨s, b4, b5⟩ := scaleCents_bounds P b3.1 hy2
  have hN0 : 0 ≤ ⌊y⌋ := Int.floor_nonneg.mpr b5.1
  have hN0q : (0 : ℚ) ≤ ((⌊y⌋ : Int) : ℚ) := by exact_mod_cast hN0
  have hNle : ((⌊y⌋ : Int) : ℚ) ≤ 2 ^ 63 := by
    have h63 : ⌊y⌋ ≤ 2 ^ 63 - 1 := le_trans hr (maxInt_le P)
    have : ((⌊y⌋ : Int) : ℚ) ≤ ((2 ^ 63 - 1 : Int) : ℚ) := by exact_mod_cast h63
    push_cast at this
    linarith
  have hpow : (2 : ℚ) ^ 63 + 2 ^ 63 + 1 ≤ 2 ^ 1000 := by norm_num
  have heta : (1 : ℚ) / 2 ^ 1075 ≤ 1 := by
    apply div_le_self (by norm_num)
    exact one_le_pow₀ (by norm_num)
  obtain ⟨f, hf⟩ := @roundToDouble_finite ((⌊y⌋ : Int) : ℚ) (by
    rw [abs_of_nonneg hN0q]
    linarith)
  have b6 := roundToDouble_error_bounds hN0q hf
  have hfle : f ≤ 2 ^ 63 + 2 ^ 63 + 1 := by
    have : ((⌊y⌋ : Int) : ℚ) / 2 ^ 53 ≤ ((⌊y⌋ : Int) : ℚ) :=
      div_le_self hN0q (one_le_pow₀ (by norm_num))
    linarith [b6.2.1]
  obtain ⟨r, hrr⟩ := @roundToDouble_finite (f / 100) (by
    rw [abs_of_nonneg (div_nonneg b6.1 (by norm_num))]
    have : f / 100 ≤ f := div_le_self b6.1 (by norm_num)
    linarith)
  have b7 := roundToDouble_error_bounds (div_nonneg b6.1 (by norm_num)) hrr
  have ht : truncate y = ⌊y⌋ := truncate_of_nonneg b5.1
  have hround :
      roundCents P (F64.div (F64.mul (F64.mul (F64.fin M) (lit o)) (F64.fin cd)) (F64.fin L))
        = F64.fin r := by
    have hrep : P.minInt ≤ truncate y ∧ truncate y ≤ P.maxInt := by
      rw [ht]
      exact ⟨le_trans (minInt_le P) hN0, hr⟩
    simp only [roundCents, hy, toInt_of_representable P hrep, ht]
    have hof : ofInt ⌊y⌋ = F64.fin f := hf
    rw [hof, F64.div_fin _ (by norm_num), hrr]
  exact ⟨od, p1, p2, m, s, f, r, hround, b0, b1, b2, b3, b4, b5,
    ⟨hN0q, Int.floor_le y, Int.lt_floor_add_one y⟩, b6, b7⟩

/-! ## Concrete evaluations -/

/-- The contract value `0.001` of BTC as a binary64 value. -/
theorem lit_thousandth :
    lit (1 / 1000) = F64.fin (1152921504606847 / 1152921504606846976) := by
  unfold lit
  exact roundToDouble_of (-10) 4611686018427388 (by norm_num)
      (by norm_num [abs_of_pos]) (by norm_num [abs_of_pos])
      (by norm_num) (by norm_num [abs_lt]) (by norm_num [abs_of_pos])

/-- The contract value `0.01` of ETH as a binary64 value. -/
theorem lit_hundredth :
    lit (1 / 100) = F64.fin (5764607523034235 / 576460752303423488) := by
  unfold lit
  exact roundToDouble_of (-7) 5764607523034235 (by norm_num)
      (by norm_num [abs_of_pos]) (by norm_num [abs_of_pos])
      (by norm_num) (by norm_num [abs_lt]) (by norm_num [abs_of_pos])

/-- The JSON number `61.99` as a binary64 value. -/
theorem lit_sixty_one_ninety_nine :
    lit (6199 / 100) = F64.fin (8724316903146783 / 140737488355328) := by
  unfold lit
  exact roundToDouble_of 5 8724316903146783 (by norm_num)
      (by norm_num [abs_of_pos]) (by norm_num [abs_of_pos])
      (by norm_num) (by norm_num [abs_lt]) (by norm_num [abs_of_pos])

/-- The decimal `0.13` as a binary64 value. -/
theorem lit_thirteen_cents :
    lit (13 / 100) = F64.fin (1170935903116329 / 9007199254740992) := by
  unfold lit
  exact roundToDouble_of (-3) 4683743612465316 (by norm_num)
      (by norm_num [abs_of_pos]) (by norm_num [abs_of_pos])
      (by norm_num) (by norm_num [abs_lt]) (by norm_num [abs_of_pos])

/-- The decimal `10.07` as a binary64 value. -/
theorem lit_ten_point_zero_seven :
    lit (1007 / 100) = F64.fin (1417226507738153 / 140737488355328) := by
  unfold lit
  exact roundToDouble_of 3 5668906030952612 (by norm_num)
      (by norm_num [abs_of_pos]) (by norm_num [abs_of_pos])
      (by norm_num) (by norm_num [abs_lt]) (by norm_num [abs_of_pos])

/-- The decimal `-6.39` as a binary64 value. -/
theorem lit_minus_six_thirty_nine :
    lit (-639 / 100) = F64.fin (-7194500404724367 / 1125899906842624) := by
  unfold lit
  exact roundToDouble_of 2 (-7194500404724367) (by norm_num)
      (by norm_num [abs_of_neg]) (by norm_num [abs_of_neg])
      (by norm_num) (by norm_num [abs_lt]) (by norm_num [abs_of_neg])

/-- The literal `62000` is a binary64 value. -/
theorem lit_int_62000 :
    lit 62000 = F64.fin 62000 := by
  unfold lit
  exact roundToDouble_of 15 8521215115264000 (by norm_num)
      (by norm_num [abs_of_pos]) (by norm_num [abs_of_pos])
      (by norm_num) (by norm_num [abs_lt]) (by norm_num [abs_of_pos])

/-- The literal `3200` is a binary64 value. -/
theorem lit_int_3200 :
    lit 3200 = F64.fin 3200 := by
  unfold lit
  exact roundToDouble_of 11 7036874417766400 (by norm_num)
      (by norm_num [abs_of_pos]) (by norm_num [abs_of_pos])
      (by norm_num) (by norm_num [abs_lt]) (by norm_num [abs_of_pos])

/-- The literal `5` is a binary64 value. -/
theorem lit_int_5 :
    lit 5 = F64.fin 5 := by
  unfold lit
  exact roundToDouble_of 2 5629499534213120 (by norm_num)
      (by norm_num [abs_of_pos]) (by norm_num [abs_of_pos])
      (by norm_num) (by norm_num [abs_lt]) (by norm_num [abs_of_pos])

/-- The literal `10` is a binary64 value. -/
theorem lit_int_10 :
    lit 10 = F64.fin 10 := by
  unfold lit
  exact roundToDouble_of 3 5629499534213120 (by norm_num)
      (by norm_num [abs_of_pos]) (by norm_num [abs_of_pos])
      (by norm_num) (by norm_num [abs_lt]) (by norm_num [abs_of_pos])

/-- The literal `20` is a binary64 value. -/
theorem lit_int_20 :
    lit 20 = F64.fin 20 := by
  unfold lit
  exact roundToDouble_of 4 5629499534213120 (by norm_num)
      (by norm_num [abs_of_pos]) (by norm_num [abs_of_pos])
      (by norm_num) (by norm_num [abs_lt]) (by norm_num [abs_of_pos])

/-- The literal `25` is a binary64 value. -/
theorem lit_int_25 :
    lit 25 = F64.fin 25 := by
  unfold lit
  exact roundToDouble_of 4 7036874417766400 (by norm_num)
      (by norm_num [abs_of_pos]) (by norm_num [abs_of_pos])
      (by norm_num) (by norm_num [abs_lt]) (by norm_num [abs_of_pos])

/-- The literal `50` is a binary64 value. -/
theorem lit_int_50 :
    lit 50 = F64.fin 50 := by
  unfold lit
  exact roundToDouble_of 5 7036874417766400 (by norm_num)
      (by norm_num [abs_of_pos]) (by norm_num [abs_of_pos])
      (by norm_num) (by norm_num [abs_lt]) (by norm_num [abs_of_pos])

/-- The literal `100` is a binary64 value. -/
theorem lit_int_100 :
    lit 100 = F64.fin 100 := by
  unfold lit
  exact roundToDouble_of 6 7036874417766400 (by norm_num)
      (by norm_num [abs_of_pos]) (by norm_num [abs_of_pos])
      (by norm_num) (by norm_num [abs_lt]) (by norm_num [abs_of_pos])

/-- The unrounded margin of the BTC request of size 10 at leverage 10. -/
theorem btc_ten_raw (req : MarginRequest) (hos : req.OrderSize = F64.fin 10)
    (hlev : req.Leverage = F64.fin 10) :
    rawMargin btc req = F64.fin 62 := by
  have s1 : F64.mul (F64.fin 62000) (F64.fin 10)
      = F64.fin 620000 := by
    rw [F64.mul_fin]
    exact roundToDouble_of 19 5325759447040000 (by norm_num)
      (by norm_num [abs_of_pos]) (by norm_num [abs_of_pos])
      (by norm_num) (by norm_num [abs_lt]) (by norm_num [abs_of_pos])
  have s2 : F64.mul (F64.fin 620000) (F64.fin (1152921504606847 / 1152921504606846976))
      = F64.fin 620 := by
    rw [F64.mul_fin]
    exact roundToDouble_of 9 5453577673768960 (by norm_num)
      (by norm_num [abs_of_pos]) (by norm_num [abs_of_pos])
      (by norm_num) (by norm_num [abs_lt]) (by norm_num [abs_of_pos])
  have s3 : F64.div (F64.fin 620) (F64.fin 10)
      = F64.fin 62 := by
    rw [F64.div_fin _ (by norm_num)]
    exact roundToDouble_of 5 8725724278030336 (by norm_num)
      (by norm_num [abs_of_pos]) (by norm_num [abs_of_pos])
      (by norm_num) (by norm_num [abs_lt]) (by norm_num [abs_of_pos])
  simp only [rawMargin, btc, hos, hlev, lit_thousandth, s1, s2, s3]

/-- The scaled margin of the BTC request of size 10 at leverage 10. -/
theorem btc_ten_scale (P : Platform) :
    scaleCents P (F64.fin 62) = F64.fin (12401 / 2) := by
  have s4 : F64.mul (F64.fin 62) (F64.fin 100)
      = F64.fin 6200 := by
    rw [F64.mul_fin]
    exact roundToDouble_of 12 6816972092211200 (by norm_num)
      (by norm_num [abs_of_pos]) (by norm_num [abs_of_pos])
      (by norm_num) (by norm_num [abs_lt]) (by norm_num [abs_of_pos])
  have s5 : F64.add (F64.fin 6200) (F64.fin (1 / 2))
      = F64.fin (12401 / 2) := by
    rw [F64.add_fin]
    exact roundToDouble_of 12 6817521848025088 (by norm_num)
      (by norm_num [abs_of_pos]) (by norm_num [abs_of_pos])
      (by norm_num) (by norm_num [abs_lt]) (by norm_num [abs_of_pos])
  have s45 : F64.fma (F64.fin 62) (F64.fin 100) (F64.fin (1 / 2)) = F64.fin (12401 / 2) := by
    rw [F64.fma_fin]
    exact roundToDouble_of 12 6817521848025088 (by norm_num)
      (by norm_num [abs_of_pos]) (by norm_num [abs_of_pos])
      (by norm_num) (by norm_num [abs_lt]) (by norm_num [abs_of_pos])
  cases hf : P.fusesMulAdd
  · rw [scaleCents_unfused P hf, s4, s5]
  · rw [scaleCents_fused P hf, s45]

/-- The rounding statement for the BTC request of size 10 at leverage 10. -/
theorem btc_ten_round (P : Platform) :
    roundCents P (F64.fin 62) = F64.fin 62 := by
  have ht : truncate (12401 / 2) = 6200 := by
    rw [truncate_of_nonneg (by norm_num), Int.floor_eq_iff]
    norm_num
  have s6 : toInt P (F64.fin (12401 / 2)) = 6200 := by
    have hrep : P.minInt ≤ truncate (12401 / 2) ∧ truncate (12401 / 2) ≤ P.maxInt := by
      rw [ht]
      exact representable_of_small P (by norm_num) (by norm_num)
    rw [toInt_of_representable P hrep, ht]
  have s7 : ofInt 6200 = F64.fin 6200 := by
    have hc : ((6200 : Int) : ℚ) = 6200 := by norm_num
    unfold ofInt
    rw [hc]
    exact roundToDouble_of 12 6816972092211200 (by norm_num)
      (by norm_num [abs_of_pos]) (by norm_num [abs_of_pos])
      (by norm_num) (by norm_num [abs_lt]) (by norm_num [abs_of_pos])
  have s8 : F64.div (F64.fin 6200) (F64.fin 100)
      = F64.fin 62 := by
    rw [F64.div_fin _ (by norm_num)]
    exact roundToDouble_of 5 8725724278030336 (by norm_num)
      (by norm_num [abs_of_pos]) (by norm_num [abs_of_pos])
      (by norm_num) (by norm_num [abs_lt]) (by norm_num [abs_of_pos])
  simp only [roundCents, btc_ten_scale P, s6, s7, s8]

/-- The unrounded margin of the ETH request of size `-1` at leverage 5. -/
theorem eth_neg_raw (req : MarginRequest) (hos : req.OrderSize = F64.fin (-1))
    (hlev : req.Leverage = F64.fin 5) :
    rawMargin eth req = F64.fin (-3602879701896397 / 562949953421312) := by
  have s1 : F64.mul (F64.fin 3200) (F64.fin (-1))
      = F64.fin (-3200) := by
    rw [F64.mul_fin]
    exact roundToDouble_of 11 (-7036874417766400) (by norm_num)
      (by norm_num [abs_of_neg]) (by norm_num [abs_of_neg])
      (by norm_num) (by norm_num [abs_lt]) (by norm_num [abs_of_neg])
  have s2 : F64.mul (F64.fin (-3200)) (F64.fin (5764607523034235 / 576460752303423488))
      = F64.fin (-32) := by
    rw [F64.mul_fin]
    exact roundToDouble_of 5 (-4503599627370496) (by norm_num)
      (by norm_num [abs_of_neg]) (by norm_num [abs_of_neg])
      (by norm_num) (by norm_num [abs_lt]) (by norm_num [abs_of_neg])
  have s3 : F64.div (F64.fin (-32)) (F64.fin 5)
      = F64.fin (-3602879701896397 / 562949953421312) := by
    rw [F64.div_fin _ (by norm_num)]
    exact roundToDouble_of 2 (-7205759403792794) (by norm_num)
      (by norm_num [abs_of_neg]) (by norm_num [abs_of_neg])
      (by norm_num) (by norm_num [abs_lt]) (by norm_num [abs_of_neg])
  simp only [rawMargin, eth, hos, hlev, lit_hundredth, s1, s2, s3]

/-- The scaled margin of the ETH request of size `-1` at leverage 5. -/
theorem eth_neg_scale (P : Platform) :
    scaleCents P (F64.fin (-3602879701896397 / 562949953421312)) = F64.fin (-1279 / 2) := by
  have s4 : F64.mul (F64.fin (-3602879701896397 / 562949953421312)) (F64.fin 100)
      = F64.fin (-640) := by
    rw [F64.mul_fin]
    exact roundToDouble_of 9 (-5629499534213120) (by norm_num)
      (by norm_num [abs_of_neg]) (by norm_num [abs_of_neg])
      (by norm_num) (by norm_num [abs_lt]) (by norm_num [abs_of_neg])
  have s5 : F64.add (F64.fin (-640)) (F64.fin (1 / 2))
      = F64.fin (-1279 / 2) := by
    rw [F64.add_fin]
    exact roundToDouble_of 9 (-5625101487702016) (by norm_num)
      (by norm_num [abs_of_neg]) (by norm_num [abs_of_neg])
      (by norm_num) (by norm_num [abs_lt]) (by norm_num [abs_of_neg])
  have s45 : F64.fma (F64.fin (-3602879701896397 / 562949953421312)) (F64.fin 100) (F64.fin (1 / 2)) = F64.fin (-1279 / 2) := by
    rw [F64.fma_fin]
    exact roundToDouble_of 9 (-5625101487702016) (by norm_num)
      (by norm_num [abs_of_neg]) (by norm_num [abs_of_neg])
      (by norm_num) (by norm_num [abs_lt]) (by norm_num [abs_of_neg])
  cases hf : P.fusesMulAdd
  · rw [scaleCents_unfused P hf, s4, s5]
  · rw [scaleCents_fused P hf, s45]

/-- The rounding statement for the ETH request of size `-1` at leverage 5. -/
theorem eth_neg_round (P : Platform) :
    roundCents P (F64.fin (-3602879701896397 / 562949953421312)) = F64.fin (-7194500404724367 / 1125899906842624) := by
  have ht : truncate (-1279 / 2) = (-639) := by
    rw [truncate_of_neg (by norm_num), Int.ceil_eq_iff]
    norm_num
  have s6 : toInt P (F64.fin (-1279 / 2)) = (-639) := by
    have hrep : P.minInt ≤ truncate (-1279 / 2) ∧ truncate (-1279 / 2) ≤ P.maxInt := by
      rw [ht]
      exact representable_of_small P (by norm_num) (by norm_num)
    rw [toInt_of_representable P hrep, ht]
  have s7 : ofInt (-639) = F64.fin (-639) := by
    have hc : (((-639) : Int) : ℚ) = (-639) := by norm_num
    unfold ofInt
    rw [hc]
    exact roundToDouble_of 9 (-5620703441190912) (by norm_num)
      (by norm_num [abs_of_neg]) (by norm_num [abs_of_neg])
      (by norm_num) (by norm_num [abs_lt]) (by norm_num [abs_of_neg])
  have s8 : F64.div (F64.fin (-639)) (F64.fin 100)
      = F64.fin (-7194500404724367 / 1125899906842624) := by
    rw [F64.div_fin _ (by norm_num)]
    exact roundToDouble_of 2 (-7194500404724367) (by norm_num)
      (by norm_num [abs_of_neg]) (by norm_num [abs_of_neg])
      (by norm_num) (by norm_num [abs_lt]) (by norm_num [abs_of_neg])
  simp only [roundCents, eth_neg_scale P, s6, s7, s8]

/-- The unrounded margin of the ETH request of size `5/256` at leverage 5. -/
theorem eth_eighth_raw (req : MarginRequest) (hos : req.OrderSize = F64.fin (5 / 256))
    (hlev : req.Leverage = F64.fin 5) :
    rawMargin eth req = F64.fin (1 / 8) := by
  have s1 : F64.mul (F64.fin 3200) (F64.fin (5 / 256))
      = F64.fin (125 / 2) := by
    rw [F64.mul_fin]
    exact roundToDouble_of 5 8796093022208000 (by norm_num)
      (by norm_num [abs_of_pos]) (by norm_num [abs_of_pos])
      (by norm_num) (by norm_num [abs_lt]) (by norm_num [abs_of_pos])
  have s2 : F64.mul (F64.fin (125 / 2)) (F64.fin (5764607523034235 / 576460752303423488))
      = F64.fin (5 / 8) := by
    rw [F64.mul_fin]
    exact roundToDouble_of (-1) 5629499534213120 (by norm_num)
      (by norm_num [abs_of_pos]) (by norm_num [abs_of_pos])
      (by norm_num) (by norm_num [abs_lt]) (by norm_num [abs_of_pos])
  have s3 : F64.div (F64.fin (5 / 8)) (F64.fin 5)
      = F64.fin (1 / 8) := by
    rw [F64.div_fin _ (by norm_num)]
    exact roundToDouble_of (-3) 4503599627370496 (by norm_num)
      (by norm_num [abs_of_pos]) (by norm_num [abs_of_pos])
      (by norm_num) (by norm_num [abs_lt]) (by norm_num [abs_of_pos])
  simp only [rawMargin, eth, hos, hlev, lit_hundredth, s1, s2, s3]

/-- The scaled margin of the ETH request of size `5/256` at leverage 5. -/
theorem eth_eighth_scale (P : Platform) :
    scaleCents P (F64.fin (1 / 8)) = F64.fin 13 := by
  have s4 : F64.mul (F64.fin (1 / 8)) (F64.fin 100)
      = F64.fin (25 / 2) := by
    rw [F64.mul_fin]
    exact roundToDouble_of 3 7036874417766400 (by norm_num)
      (by norm_num [abs_of_pos]) (by norm_num [abs_of_pos])
      (by norm_num) (by norm_num [abs_lt]) (by norm_num [abs_of_pos])
  have s5 : F64.add (F64.fin (25 / 2)) (F64.fin (1 / 2))
      = F64.fin 13 := by
    rw [F64.add_fin]
    exact roundToDouble_of 3 7318349394477056 (by norm_num)
      (by norm_num [abs_of_pos]) (by norm_num [abs_of_pos])
      (by norm_num) (by norm_num [abs_lt]) (by norm_num [abs_of_pos])
  have s45 : F64.fma (F64.fin (1 / 8)) (F64.fin 100) (F64.fin (1 / 2)) = F64.fin 13 := by
    rw [F64.fma_fin]
    exact roundToDouble_of 3 7318349394477056 (by norm_num)
      (by norm_num [abs_of_pos]) (by norm_num [abs_of_pos])
      (by norm_num) (by norm_num [abs_lt]) (by norm_num [abs_of_pos])
  cases hf : P.fusesMulAdd
  · rw [scaleCents_unfused P hf, s4, s5]
  · rw [scaleCents_fused P hf, s45]

/-- The rounding statement for the ETH request of size `5/256` at leverage 5. -/
theorem eth_eighth_round (P : Platform) :
    roundCents P (F64.fin (1 / 8)) = F64.fin (1170935903116329 / 9007199254740992) := by
  have ht : truncate 13 = 13 := by
    rw [truncate_of_nonneg (by norm_num), Int.floor_eq_iff]
    norm_num
  have s6 : toInt P (F64.fin 13) = 13 := by
    have hrep : P.minInt ≤ truncate 13 ∧ truncate 13 ≤ P.maxInt := by
      rw [ht]
      exact representable_of_small P (by norm_num) (by norm_num)
    rw [toInt_of_representable P hrep, ht]
  have s7 : ofInt 13 = F64.fin 13 := by
    have hc : ((13 : Int) : ℚ) = 13 := by norm_num
    unfold ofInt
    rw [hc]
    exact roundToDouble_of 3 7318349394477056 (by norm_num)
      (by norm_num [abs_of_pos]) (by norm_num [abs_of_pos])
      (by norm_num) (by norm_num [abs_lt]) (by norm_num [abs_of_pos])
  have s8 : F64.div (F64.fin 13) (F64.fin 100)
      = F64.fin (1170935903116329 / 9007199254740992) := by
    rw [F64.div_fin _ (by norm_num)]
    exact roundToDouble_of (-3) 4683743612465316 (by norm_num)
      (by norm_num [abs_of_pos]) (by norm_num [abs_of_pos])
      (by norm_num) (by norm_num [abs_lt]) (by norm_num [abs_of_pos])
  simp only [roundCents, eth_eighth_scale P, s6, s7, s8]

/-- The unrounded margin of the ETH request of size `10 ^ 18` at leverage 5. -/
theorem eth_huge_raw (req : MarginRequest) (hos : req.OrderSize = F64.fin 1000000000000000000)
    (hlev : req.Leverage = F64.fin 5) :
    rawMargin eth req = F64.fin 6400000000000000000 := by
  have s1 : F64.mul (F64.fin 3200) (F64.fin 1000000000000000000)
      = F64.fin 3200000000000000000000 := by
    rw [F64.mul_fin]
    exact roundToDouble_of 71 6103515625000000 (by norm_num)
      (by norm_num [abs_of_pos]) (by norm_num [abs_of_pos])
      (by norm_num) (by norm_num [abs_lt]) (by norm_num [abs_of_pos])
  have s2 : F64.mul (F64.fin 3200000000000000000000) (F64.fin (5764607523034235 / 576460752303423488))
      = F64.fin 32000000000000000000 := by
    rw [F64.mul_fin]
    exact roundToDouble_of 64 7812500000000000 (by norm_num)
      (by norm_num [abs_of_pos]) (by norm_num [abs_of_pos])
      (by norm_num) (by norm_num [abs_lt]) (by norm_num [abs_of_pos])
  have s3 : F64.div (F64.fin 32000000000000000000) (F64.fin 5)
      = F64.fin 6400000000000000000 := by
    rw [F64.div_fin _ (by norm_num)]
    exact roundToDouble_of 62 6250000000000000 (by norm_num)
      (by norm_num [abs_of_pos]) (by norm_num [abs_of_pos])
      (by norm_num) (by norm_num [abs_lt]) (by norm_num [abs_of_pos])
  simp only [rawMargin, eth, hos, hlev, lit_hundredth, s1, s2, s3]

/-- The scaled margin of the ETH request of size `10 ^ 18` at leverage 5. -/
theorem eth_huge_scale (P : Platform) :
    scaleCents P (F64.fin 6400000000000000000) = F64.fin 640000000000000000000 := by
  have s4 : F64.mul (F64.fin 6400000000000000000) (F64.fin 100)
      = F64.fin 640000000000000000000 := by
    rw [F64.mul_fin]
    exact roundToDouble_of 69 4882812500000000 (by norm_num)
      (by norm_num [abs_of_pos]) (by norm_num [abs_of_pos])
      (by norm_num) (by norm_num [abs_lt]) (by norm_num [abs_of_pos])
  have s5 : F64.add (F64.fin 640000000000000000000) (F64.fin (1 / 2))
      = F64.fin 640000000000000000000 := by
    rw [F64.add_fin]
    exact roundToDouble_of 69 4882812500000000 (by norm_num)
      (by norm_num [abs_of_pos]) (by norm_num [abs_of_pos])
      (by norm_num) (by norm_num [abs_lt]) (by norm_num [abs_of_pos])
  have s45 : F64.fma (F64.fin 6400000000000000000) (F64.fin 100) (F64.fin (1 / 2)) = F64.fin 640000000000000000000 := by
    rw [F64.fma_fin]
    exact roundToDouble_of 69 4882812500000000 (by norm_num)
      (by norm_num [abs_of_pos]) (by norm_num [abs_of_pos])
      (by norm_num) (by norm_num [abs_lt]) (by norm_num [abs_of_pos])
  cases hf : P.fusesMulAdd
  · rw [scaleCents_unfused P hf, s4, s5]
  · rw [scaleCents_fused P hf, s45]

/-- The rounding statement on `amd64` for the ETH request of size `10 ^ 18` at leverage 5: the conversion to `int` overflows. -/
theorem eth_huge_round :
    roundCents amd64 (F64.fin 6400000000000000000) = F64.fin (-92233720368547760) := by
  have ht : truncate 640000000000000000000 = 640000000000000000000 := by
    rw [truncate_of_nonneg (by norm_num), Int.floor_eq_iff]
    norm_num
  have s6 : toInt amd64 (F64.fin 640000000000000000000) = (-9223372036854775808) := by
    have hbig : amd64.maxInt < truncate 640000000000000000000 := by
      rw [ht]
      norm_num [Platform.maxInt, Platform.intBits, amd64]
    rw [toInt_of_too_large amd64 hbig]
    norm_num [amd64]
  have s7 : ofInt (-9223372036854775808) = F64.fin (-9223372036854775808) := by
    have hc : (((-9223372036854775808) : Int) : ℚ) = (-9223372036854775808) := by norm_num
    unfold ofInt
    rw [hc]
    exact roundToDouble_of 63 (-4503599627370496) (by norm_num)
      (by norm_num [abs_of_neg]) (by norm_num [abs_of_neg])
      (by norm_num) (by norm_num [abs_lt]) (by norm_num [abs_of_neg])
  have s8 : F64.div (F64.fin (-9223372036854775808)) (F64.fin 100)
      = F64.fin (-92233720368547760) := by
    rw [F64.div_fin _ (by norm_num)]
    exact roundToDouble_of 56 (-5764607523034235) (by norm_num)
      (by norm_num [abs_of_neg]) (by norm_num [abs_of_neg])
      (by norm_num) (by norm_num [abs_lt]) (by norm_num [abs_of_neg])
  simp only [roundCents, eth_huge_scale amd64, s6, s7, s8]

/-- The unrounded margin of the BTC request of size `0.8125` at leverage 5. -/
theorem btc_tie_raw (req : MarginRequest) (hos : req.OrderSize = F64.fin (13 / 16))
    (hlev : req.Leverage = F64.fin 5) :
    rawMargin btc req = F64.fin (2835860390359859 / 281474976710656) := by
  have s1 : F64.mul (F64.fin 62000) (F64.fin (13 / 16))
      = F64.fin 50375 := by
    rw [F64.mul_fin]
    exact roundToDouble_of 15 6923487281152000 (by norm_num)
      (by norm_num [abs_of_pos]) (by norm_num [abs_of_pos])
      (by norm_num) (by norm_num [abs_lt]) (by norm_num [abs_of_pos])
  have s2 : F64.mul (F64.fin 50375) (F64.fin (1152921504606847 / 1152921504606846976))
      = F64.fin (403 / 8) := by
    rw [F64.mul_fin]
    exact roundToDouble_of 5 7089650975899648 (by norm_num)
      (by norm_num [abs_of_pos]) (by norm_num [abs_of_pos])
      (by norm_num) (by norm_num [abs_lt]) (by norm_num [abs_of_pos])
  have s3 : F64.div (F64.fin (403 / 8)) (F64.fin 5)
      = F64.fin (2835860390359859 / 281474976710656) := by
    rw [F64.div_fin _ (by norm_num)]
    exact roundToDouble_of 3 5671720780719718 (by norm_num)
      (by norm_num [abs_of_pos]) (by norm_num [abs_of_pos])
      (by norm_num) (by norm_num [abs_lt]) (by norm_num [abs_of_pos])
  simp only [rawMargin, btc, hos, hlev, lit_thousandth, s1, s2, s3]

/-- The scaled margin of the BTC request of size `0.8125` at leverage 5. -/
theorem btc_tie_scale (P : Platform) :
    scaleCents P (F64.fin (2835860390359859 / 281474976710656)) = F64.fin (8866461766385663 / 8796093022208) := by
  have s4 : F64.mul (F64.fin (2835860390359859 / 281474976710656)) (F64.fin 100)
      = F64.fin (8862063719874559 / 8796093022208) := by
    rw [F64.mul_fin]
    exact roundToDouble_of 9 8862063719874559 (by norm_num)
      (by norm_num [abs_of_pos]) (by norm_num [abs_of_pos])
      (by norm_num) (by norm_num [abs_lt]) (by norm_num [abs_of_pos])
  have s5 : F64.add (F64.fin (8862063719874559 / 8796093022208)) (F64.fin (1 / 2))
      = F64.fin (8866461766385663 / 8796093022208) := by
    rw [F64.add_fin]
    exact roundToDouble_of 9 8866461766385663 (by norm_num)
      (by norm_num [abs_of_pos]) (by norm_num [abs_of_pos])
      (by norm_num) (by norm_num [abs_lt]) (by norm_num [abs_of_pos])
  have s45 : F64.fma (F64.fin (2835860390359859 / 281474976710656)) (F64.fin 100) (F64.fin (1 / 2)) = F64.fin (8866461766385663 / 8796093022208) := by
    rw [F64.fma_fin]
    exact roundToDouble_of 9 8866461766385663 (by norm_num)
      (by norm_num [abs_of_pos]) (by norm_num [abs_of_pos])
      (by norm_num) (by norm_num [abs_lt]) (by norm_num [abs_of_pos])
  cases hf : P.fusesMulAdd
  · rw [scaleCents_unfused P hf, s4, s5]
  · rw [scaleCents_fused P hf, s45]

/-- The rounding statement for the BTC request of size `0.8125` at leverage 5. -/
theorem btc_tie_round (P : Platform) :
    roundCents P (F64.fin (2835860390359859 / 281474976710656)) = F64.fin (1417226507738153 / 140737488355328) := by
  have ht : truncate (8866461766385663 / 8796093022208) = 1007 := by
    rw [truncate_of_nonneg (by norm_num), Int.floor_eq_iff]
    norm_num
  have s6 : toInt P (F64.fin (8866461766385663 / 8796093022208)) = 1007 := by
    have hrep : P.minInt ≤ truncate (8866461766385663 / 8796093022208) ∧ truncate (8866461766385663 / 8796093022208) ≤ P.maxInt := by
      rw [ht]
      exact representable_of_small P (by norm_num) (by norm_num)
    rw [toInt_of_representable P hrep, ht]
  have s7 : ofInt 1007 = F64.fin 1007 := by
    have hc : ((1007 : Int) : ℚ) = 1007 := by norm_num
    unfold ofInt
    rw [hc]
    exact roundToDouble_of 9 8857665673363456 (by norm_num)
      (by norm_num [abs_of_pos]) (by norm_num [abs_of_pos])
      (by norm_num) (by norm_num [abs_lt]) (by norm_num [abs_of_pos])
  have s8 : F64.div (F64.fin 1007) (F64.fin 100)
      = F64.fin (1417226507738153 / 140737488355328) := by
    rw [F64.div_fin _ (by norm_num)]
    exact roundToDouble_of 3 5668906030952612 (by norm_num)
      (by norm_num [abs_of_pos]) (by norm_num [abs_of_pos])
      (by norm_num) (by norm_num [abs_lt]) (by norm_num [abs_of_pos])
  simp only [roundCents, btc_tie_scale P, s6, s7, s8]

/-- The quotient `float64(6.4 * 10 ^ 20) / 100`, which an `int` of unbounded range would give for
the ETH request of size `10 ^ 18` at leverage 5. -/
theorem eth_huge_claimed :
    F64.div (ofInt 640000000000000000000) (F64.fin 100) = F64.fin 6400000000000000000 := by
  have s7 : ofInt 640000000000000000000 = F64.fin 640000000000000000000 := by
    have hc : ((640000000000000000000 : Int) : ℚ) = 640000000000000000000 := by norm_num
    unfold ofInt
    rw [hc]
    exact roundToDouble_of 69 4882812500000000 (by norm_num)
      (by norm_num [abs_of_pos]) (by norm_num [abs_of_pos])
      (by norm_num) (by norm_num [abs_lt]) (by norm_num [abs_of_pos])
  have s8 : F64.div (F64.fin 640000000000000000000) (F64.fin 100)
      = F64.fin 6400000000000000000 := by
    rw [F64.div_fin _ (by norm_num)]
    exact roundToDouble_of 62 6250000000000000 (by norm_num)
      (by norm_num [abs_of_pos]) (by norm_num [abs_of_pos])
      (by norm_num) (by norm_num [abs_lt]) (by norm_num [abs_of_pos])
  rw [s7, s8]

/-! ## The program against the exact margin of the specification -/

theorem assets_eq_decimal : assets = decimalAssets.map DecimalConfig.toFloat := by
  simp [assets, decimalAssets, DecimalConfig.toFloat, lit_int_62000, lit_int_3200, lit_int_5,
    lit_int_10, lit_int_20, lit_int_25, lit_int_50, lit_int_100]

theorem mem_decimalAssets {d : DecimalConfig} (hd : d ∈ decimalAssets) :
    d = { Symbol := "BTC", MarkPrice := 62000, ContractValue := 1 / 1000,
          AllowedLeverage := [5, 10, 20, 50, 100] } ∨
      d = { Symbol := "ETH", MarkPrice := 3200, ContractValue := 1 / 100,
            AllowedLeverage := [5, 10, 25, 50] } := by
  simpa [decimalAssets] using hd

theorem toFloat_mem_assets {d : DecimalConfig} (hd : d ∈ decimalAssets) :
    d.toFloat ∈ assets := by
  rw [assets_eq_decimal]
  exact List.mem_map_of_mem _ hd

/-- For a non-negative decimal order size, a finite scaled margin and an integer part that
`int` holds, the rounded margin is within half a cent, and a relative error of `2 ^ -49`, of
the exact margin. -/
theorem roundCents_close (P : Platform) (req : MarginRequest) (d : DecimalConfig) (o L y : ℚ)
    (hd : d ∈ decimalAssets) (hL : L ∈ d.AllowedLeverage) (hlev : req.Leverage = lit L)
    (hos : req.OrderSize = lit o) (ho : 0 ≤ o)
    (hy : scaleCents P (rawMargin d.toFloat req) = F64.fin y) (hr : ⌊y⌋ ≤ P.maxInt) :
    ∃ r : ℚ, roundCents P (rawMargin d.toFloat req) = F64.fin r ∧
      |r - exactMargin d o L| ≤ 1 / 200 + (exactMargin d o L + 1) / 2 ^ 49 := by
  rcases mem_decimalAssets hd with rfl | rfl
  · simp only [List.mem_cons, List.mem_singleton, List.not_mem_nil, or_false] at hL
    rcases hL with rfl | rfl | rfl | rfl | rfl <;>
    · simp only [rawMargin, DecimalConfig.toFloat, hos, hlev, lit_int_62000, lit_thousandth,
        lit_int_5, lit_int_10, lit_int_20, lit_int_50, lit_int_100] at hy ⊢
      obtain ⟨od, p1, p2, m, s, f, r, hround, b0, b1, b2, b3, b4, b5, b6, b7, b8⟩ :=
        chain_bounds P (by norm_num) (by norm_num) (by norm_num) ho hy hr
      refine ⟨r, hround, ?_⟩
      clear hy hr hround hlev hos hd
      simp only [exactMargin]
      rw [abs_le]
      constructor
      · linarith only [ho, b0.2.2, b1.2.2, b2.2.2, b3.2.2, b4.2.2, b5.2.2, b6.2.2, b7.2.2,
          b8.2.2, b7.1, b6.1]
      · linarith only [ho, b0.2.1, b1.2.1, b2.2.1, b3.2.1, b4.2.1, b5.2.1, b6.2.1, b7.2.1,
          b8.2.1, b6.1, b7.1]
  · simp only [List.mem_cons, List.mem_singleton, List.not_mem_nil, or_false] at hL
    rcases hL with rfl | rfl | rfl | rfl <;>
    · simp only [rawMargin, DecimalConfig.toFloat, hos, hlev, lit_int_3200, lit_hundredth,
        lit_int_5, lit_int_10, lit_int_25, lit_int_50] at hy ⊢
      obtain ⟨od, p1, p2, m, s, f, r, hround, b0, b1, b2, b3, b4, b5, b6, b7, b8⟩ :=
        chain_bounds P (by norm_num) (by norm_num) (by norm_num) ho hy hr
      refine ⟨r, hround, ?_⟩
      clear hy hr hround hlev hos hd
      simp only [exactMargin]
      rw [abs_le]
      constructor
      · linarith only [ho, b0.2.2, b1.2.2, b2.2.2, b3.2.2, b4.2.2, b5.2.2, b6.2.2, b7.2.2,
          b8.2.2, b7.1, b6.1]
      · linarith only [ho, b0.2.1, b1.2.1, b2.2.1, b3.2.1, b4.2.1, b5.2.1, b6.2.1, b7.2.1,
          b8.2.1, b6.1, b7.1]

/-! ## Catalog facts -/

theorem assets_symbols_nodup : (assets.map (fun a => a.Symbol)).Nodup := by
  decide

theorem assets_entry_wellformed :
    ∀ a ∈ assets, a.AllowedLeverage ≠ [] ∧ a.AllowedLeverage.Nodup ∧
      F64.lt (F64.fin 0) a.MarkPrice = true ∧ F64.lt (F64.fin 0) a.ContractValue = true ∧
      ∀ l ∈ a.AllowedLeverage, F64.lt (F64.fin 0) l = true := by
  intro a ha
  have hlev : ∀ l ∈ a.AllowedLeverage, F64.lt (F64.fin 0) l = true := by
    intro l hl
    obtain ⟨q, hq, hpos⟩ := allowed_leverage_pos ha hl
    rw [hq]
    simpa [F64.lt] using hpos
  rcases mem_assets ha with rfl | rfl
  · refine ⟨by simp [btc], by norm_num [btc], by norm_num [btc, F64.lt], ?_, hlev⟩
    show F64.lt (F64.fin 0) (lit (1 / 1000)) = true
    rw [lit_thousandth]
    norm_num [F64.lt]
  · refine ⟨by simp [eth], by norm_num [eth], by norm_num [eth, F64.lt], ?_, hlev⟩
    show F64.lt (F64.fin 0) (lit (1 / 100)) = true
    rw [lit_hundredth]
    norm_num [F64.lt]

/-! ## Claims on validation failures, pre-flight requests and the catalog -/

/-- C3. A decoded POST request whose asset symbol equals the symbol of no catalog entry is
answered with the client error "Asset not found" (status 400, plain text), whatever its other
fields are, and the response carries no margin. -/
theorem unknown_asset_not_found (P : Platform) (req : MarginRequest)
    (h : ∀ a ∈ assets, a.Symbol ≠ req.Asset) :
    validateHandler P newWriter (post req)
        = httpError (enableCors newWriter) "Asset not found" StatusBadRequest ∧
      isAssetNotFound (validateHandler P newWriter (post req)) ∧
      marginRequiredOf (validateHandler P newWriter (post req)) = none := by
  have hsel : selectAsset assets req.Asset = none := selectAsset_eq_none.mpr h
  rw [validateHandler_unknown P req hsel]
  exact ⟨rfl, ⟨rfl, rfl⟩, rfl⟩

/-- C3, at the symbols "DOGE" and "btc" (the comparison is case-sensitive). -/
theorem unknown_asset_not_found_witness :
    ((∀ a ∈ assets, a.Symbol ≠ "DOGE") ∧
      isAssetNotFound
        (validateHandler amd64 newWriter
          (post { Asset := "DOGE", OrderSize := F64.fin 10, Side := "buy",
                  Leverage := F64.fin 10, MarginClient := F64.fin 62 }))) ∧
    ((∀ a ∈ assets, a.Symbol ≠ "btc") ∧
      isAssetNotFound
        (validateHandler amd64 newWriter
          (post { Asset := "btc", OrderSize := F64.fin 10, Side := "buy",
                  Leverage := F64.fin 10, MarginClient := F64.fin 62 }))) :=
  ⟨⟨by decide, (unknown_asset_not_found amd64 _ (by decide)).2.1⟩,
   ⟨by decide, (unknown_asset_not_found amd64 _ (by decide)).2.1⟩⟩

/-- C4. For a decoded POST request whose asset symbol is that of the catalog entry `a`, the
answer is the client error "Invalid leverage" exactly when the requested leverage equals no
element of the allowed-leverage list of `a`, whatever the other fields are. -/
theorem invalid_leverage_iff (P : Platform) (req : MarginRequest) (a : AssetConfig)
    (ha : a ∈ assets) (hs : a.Symbol = req.Asset) :
    isInvalidLeverage (validateHandler P newWriter (post req)) ↔
      req.Leverage ∉ a.AllowedLeverage := by
  have hsel : selectAsset assets req.Asset = some a := selectAsset_assets ha hs
  constructor
  · intro hinv hmem
    have hl : validLeverage a.AllowedLeverage req.Leverage = true :=
      (validLeverage_iff (allowed_leverage_ne_nan ha)).mpr hmem
    rcases validateHandler_valid P req a hsel hl with hr | hr
    · have := hinv.2
      rw [hr.2] at this
      simp at this
    · have := hinv.2
      rw [hr.2] at this
      simp at this
  · intro hmem
    have hl : validLeverage a.AllowedLeverage req.Leverage = false := by
      cases hv : validLeverage a.AllowedLeverage req.Leverage
      · rfl
      · exact absurd ((validLeverage_iff (allowed_leverage_ne_nan ha)).mp hv) hmem
    rw [validateHandler_badLeverage P req a hsel hl]
    exact ⟨rfl, rfl⟩

/-- C4, at asset ETH with leverage 7 (allowed: 5, 10, 25, 50), and with the binary64 value
next above 10, `10 + 2 ^ -49`. -/
theorem invalid_leverage_iff_witness :
    eth ∈ assets ∧
      (F64.fin 7 ∉ eth.AllowedLeverage ∧
        isInvalidLeverage
          (validateHandler amd64 newWriter
            (post { Asset := "ETH", OrderSize := F64.fin 1, Side := "sell",
                    Leverage := F64.fin 7, MarginClient := F64.fin 1000 }))) ∧
      (F64.fin (10 + 1 / 2 ^ 49) ∉ eth.AllowedLeverage ∧
        isInvalidLeverage
          (validateHandler amd64 newWriter
            (post { Asset := "ETH", OrderSize := F64.fin 1, Side := "sell",
                    Leverage := F64.fin (10 + 1 / 2 ^ 49), MarginClient := F64.fin 1000 }))) :=
  ⟨eth_mem,
   ⟨by norm_num [eth],
    (invalid_leverage_iff amd64
      { Asset := "ETH", OrderSize := F64.fin 1, Side := "sell", Leverage := F64.fin 7,
        MarginClient := F64.fin 1000 }
      eth eth_mem rfl).mpr (by norm_num [eth])⟩,
   ⟨by norm_num [eth],
    (invalid_leverage_iff amd64
      { Asset := "ETH", OrderSize := F64.fin 1, Side := "sell",
        Leverage := F64.fin (10 + 1 / 2 ^ 49), MarginClient := F64.fin 1000 }
      eth eth_mem rfl).mpr (by norm_num [eth])⟩⟩

/-- C8. On a request with method OPTIONS, `configHandler` and `validateHandler` only set the
CORS headers: the status stays 200, the body stays empty and no margin is produced, whatever
the body of the request is. -/
theorem options_preflight (P : Platform) (body : Option MarginRequest) :
    configHandler newWriter { Method := "OPTIONS", Body := body } = enableCors newWriter ∧
      validateHandler P newWriter { Method := "OPTIONS", Body := body } = enableCors newWriter ∧
      (enableCors newWriter).Header =
        [("Access-Control-Allow-Origin", "*"),
         ("Access-Control-Allow-Methods", "POST, GET, OPTIONS, PUT, DELETE"),
         ("Access-Control-Allow-Headers",
          "Accept, Content-Type, Content-Length, Accept-Encoding, X-CSRF-Token, Authorization")] ∧
      (enableCors newWriter).Code = 200 ∧
      (enableCors newWriter).Body = [] ∧
      marginRequiredOf (validateHandler P newWriter { Method := "OPTIONS", Body := body })
        = none := by
  have h1 : configHandler newWriter { Method := "OPTIONS", Body := body }
      = enableCors newWriter := by
    simp [configHandler]
  have h2 : validateHandler P newWriter { Method := "OPTIONS", Body := body }
      = enableCors newWriter := by
    simp [validateHandler]
  refine ⟨h1, h2, by decide, rfl, rfl, ?_⟩
  rw [h2]
  rfl

/-- C9. The built-in catalog has pairwise distinct symbols, and every entry has a non-empty,
duplicate-free allowed-leverage list and strictly positive mark price, contract value and
allowed leverage values. -/
theorem assets_invariant :
    (assets.map (fun a => a.Symbol)).Nodup ∧
      ∀ a ∈ assets, a.AllowedLeverage ≠ [] ∧ a.AllowedLeverage.Nodup ∧
        F64.lt (F64.fin 0) a.MarkPrice = true ∧ F64.lt (F64.fin 0) a.ContractValue = true ∧
        ∀ l ∈ a.AllowedLeverage, F64.lt (F64.fin 0) l = true :=
  ⟨assets_symbols_nodup, assets_entry_wellformed⟩

/-- C9, at the ETH entry. -/
theorem assets_invariant_witness :
    eth ∈ assets ∧
      (eth.AllowedLeverage ≠ [] ∧ eth.AllowedLeverage.Nodup ∧
        F64.lt (F64.fin 0) eth.MarkPrice = true ∧
        F64.lt (F64.fin 0) eth.ContractValue = true ∧
        ∀ l ∈ eth.AllowedLeverage, F64.lt (F64.fin 0) l = true) :=
  ⟨eth_mem, assets_invariant.2 eth eth_mem⟩

/-- C10. The divisor of the margin computation is never zero: when both guards in front of
the computation pass, the requested leverage is an element of the selected asset's
allowed-leverage list and is non-zero; a response that carries a margin comes from such a
request; and a decoded POST request with leverage 0 is answered "Invalid leverage" or
"Asset not found". -/
theorem leverage_nonzero_at_division (P : Platform) (req : MarginRequest) :
    (∀ a, selectAsset assets req.Asset = some a →
        validLeverage a.AllowedLeverage req.Leverage = true →
        req.Leverage ∈ a.AllowedLeverage ∧ req.Leverage ≠ F64.fin 0) ∧
      (∀ m, marginRequiredOf (validateHandler P newWriter (post req)) = some m →
        ∃ a, selectAsset assets req.Asset = some a ∧ req.Leverage ∈ a.AllowedLeverage ∧
          req.Leverage ≠ F64.fin 0) ∧
      (req.Leverage = F64.fin 0 →
        isInvalidLeverage (validateHandler P newWriter (post req)) ∨
          isAssetNotFound (validateHandler P newWriter (post req))) := by
  have key : ∀ a, selectAsset assets req.Asset = some a →
      validLeverage a.AllowedLeverage req.Leverage = true →
      req.Leverage ∈ a.AllowedLeverage ∧ req.Leverage ≠ F64.fin 0 := by
    intro a hsel hl
    have ha := (selectAsset_eq_some hsel).1
    have hmem := (validLeverage_iff (allowed_leverage_ne_nan ha)).mp hl
    exact ⟨hmem, allowed_leverage_ne_zero ha hmem⟩
  refine ⟨key, ?_, ?_⟩
  · intro m hm
    cases hsel : selectAsset assets req.Asset with
    | none =>
      rw [validateHandler_unknown P req hsel, marginRequiredOf_httpError] at hm
      exact absurd hm (by simp)
    | some a =>
      cases hl : validLeverage a.AllowedLeverage req.Leverage with
      | false =>
        rw [validateHandler_badLeverage P req a hsel hl, marginRequiredOf_httpError] at hm
        exact absurd hm (by simp)
      | true => exact ⟨a, rfl, key a hsel hl⟩
  · intro h0
    cases hsel : selectAsset assets req.Asset with
    | none =>
      right
      rw [validateHandler_unknown P req hsel]
      exact ⟨rfl, rfl⟩
    | some a =>
      left
      cases hl : validLeverage a.AllowedLeverage req.Leverage with
      | false =>
        rw [validateHandler_badLeverage P req a hsel hl]
        exact ⟨rfl, rfl⟩
      | true => exact absurd h0 (key a hsel hl).2

/-- C10, at a BTC request whose leverage field is 0 (or absent). -/
theorem leverage_nonzero_at_division_witness :
    isInvalidLeverage
        (validateHandler amd64 newWriter
          (post { Asset := "BTC", OrderSize := F64.fin 10, Side := "buy",
                  Leverage := F64.fin 0, MarginClient := F64.fin 62 })) ∨
      isAssetNotFound
        (validateHandler amd64 newWriter
          (post { Asset := "BTC", OrderSize := F64.fin 10, Side := "buy",
                  Leverage := F64.fin 0, MarginClient := F64.fin 62 })) :=
  (leverage_nonzero_at_division amd64
    { Asset := "BTC", OrderSize := F64.fin 10, Side := "buy", Leverage := F64.fin 0,
      MarginClient := F64.fin 62 }).2.2
    rfl

/-! ## Claims on the sufficiency decision -/

/-- C5. For a request that passes asset and leverage validation, with `mr` the rounded
required margin: the answer is the rejection (status 400, "error", "Insufficient margin
submitted", carrying `mr`) exactly when `margin_client < mr`, and the acceptance ("ok",
carrying `mr`) exactly when not; a `margin_client` equal to `mr` is accepted. -/
theorem sufficiency_decision (P : Platform) (req : MarginRequest) (a : AssetConfig)
    (ha : a ∈ assets) (hs : a.Symbol = req.Asset) (hl : req.Leverage ∈ a.AllowedLeverage) :
    (isRejection (validateHandler P newWriter (post req)) (roundCents P (rawMargin a req)) ↔
        F64.lt req.MarginClient (roundCents P (rawMargin a req)) = true) ∧
      (isAcceptance (validateHandler P newWriter (post req)) (roundCents P (rawMargin a req)) ↔
        ¬ F64.lt req.MarginClient (roundCents P (rawMargin a req)) = true) ∧
      (req.MarginClient = roundCents P (rawMargin a req) →
        isAcceptance (validateHandler P newWriter (post req))
          (roundCents P (rawMargin a req))) := by
  obtain ⟨hsel, hv⟩ := passes_validation ha hs hl
  have hrej : ∀ m, isRejection (validateHandler P newWriter (post req)) m →
      ∀ m2, ¬ isAcceptance (validateHandler P newWriter (post req)) m2 := by
    intro m h1 m2 h2
    have e1 := h1.1
    rw [h2.1] at e1
    exact absurd e1 (by decide)
  refine ⟨⟨?_, isRejection_insufficient P req a hsel hv⟩, ⟨?_, ?_⟩, ?_⟩
  · intro h
    by_contra hm
    exact hrej _ h _ (isAcceptance_sufficient P req a hsel hv (by simpa using hm))
  · intro h hm
    exact hrej _ (isRejection_insufficient P req a hsel hv hm) _ h
  · intro hm
    exact isAcceptance_sufficient P req a hsel hv (by simpa using hm)
  · intro he
    exact isAcceptance_sufficient P req a hsel hv (by rw [he]; exact F64.lt_irrefl _)

/-- C5, at the BTC request of size 10 at leverage 10 with a margin of exactly 62. -/
theorem sufficiency_decision_witness :
    btc ∈ assets ∧ F64.fin 10 ∈ btc.AllowedLeverage ∧
      isAcceptance
        (validateHandler amd64 newWriter
          (post { Asset := "BTC", OrderSize := F64.fin 10, Side := "buy",
                  Leverage := F64.fin 10, MarginClient := F64.fin 62 }))
        (F64.fin 62) := by
  have hlev : F64.fin 10 ∈ btc.AllowedLeverage := by norm_num [btc]
  have h := (sufficiency_decision amd64
    { Asset := "BTC", OrderSize := F64.fin 10, Side := "buy", Leverage := F64.fin 10,
      MarginClient := F64.fin 62 }
    btc btc_mem rfl hlev).2.2
  rw [btc_ten_raw _ rfl rfl, btc_ten_round] at h
  exact ⟨btc_mem, hlev, h rfl⟩

/-- C6. With the built-in catalog, the request BTC, order size 10, leverage 10 has required
margin 62 whatever its side and submitted margin; with a submitted margin of 62 it is
accepted carrying 62, and with 61.99 it is rejected carrying 62. -/
theorem btc_scenario (P : Platform) (side : String) (mc : F64) :
    marginRequiredOf
        (validateHandler P newWriter
          (post { Asset := "BTC", OrderSize := F64.fin 10, Side := side,
                  Leverage := F64.fin 10, MarginClient := mc })) = some (F64.fin 62) ∧
      isAcceptance
        (validateHandler P newWriter
          (post { Asset := "BTC", OrderSize := F64.fin 10, Side := side,
                  Leverage := F64.fin 10, MarginClient := F64.fin 62 }))
        (F64.fin 62) ∧
      isRejection
        (validateHandler P newWriter
          (post { Asset := "BTC", OrderSize := F64.fin 10, Side := side,
                  Leverage := F64.fin 10, MarginClient := lit (6199 / 100) }))
        (F64.fin 62) := by
  have hlev : F64.fin 10 ∈ btc.AllowedLeverage := by norm_num [btc]
  have hround : ∀ c : F64, roundCents P (rawMargin btc
      { Asset := "BTC", OrderSize := F64.fin 10, Side := side, Leverage := F64.fin 10,
        MarginClient := c }) = F64.fin 62 := by
    intro c
    rw [btc_ten_raw _ rfl rfl, btc_ten_round]
  have hpass : ∀ c : F64,
      selectAsset assets (MarginRequest.Asset
        { Asset := "BTC", OrderSize := F64.fin 10, Side := side, Leverage := F64.fin 10,
          MarginClient := c }) = some btc ∧
      validLeverage btc.AllowedLeverage (MarginRequest.Leverage
        { Asset := "BTC", OrderSize := F64.fin 10, Side := side, Leverage := F64.fin 10,
          MarginClient := c }) = true :=
    fun c => passes_validation btc_mem rfl hlev
  refine ⟨?_, ?_, ?_⟩
  · rw [marginRequiredOf_valid P _ btc (hpass mc).1 (hpass mc).2, hround mc]
  · have h := isAcceptance_sufficient P _ btc (hpass (F64.fin 62)).1 (hpass (F64.fin 62)).2
      (by rw [hround]; exact F64.lt_irrefl _)
    rw [hround] at h
    exact h
  · have h := isRejection_insufficient P _ btc (hpass (lit (6199 / 100))).1
      (hpass (lit (6199 / 100))).2
      (by
        rw [hround]
        show F64.lt (lit (6199 / 100)) (F64.fin 62) = true
        rw [lit_sixty_one_ninety_nine]
        norm_num [F64.lt])
    rw [hround] at h
    exact h

/-- C7. Retrying with the returned amount succeeds: when a decoded POST request is rejected
for insufficient margin carrying `r`, the same request with `margin_client` set to `r` is
accepted carrying `r`; and whatever `margin_client` and `side` are replaced by, the response
carries the same required margin `r`. -/
theorem retry_with_returned_margin (P : Platform) (req : MarginRequest) (r : F64)
    (h : isRejection (validateHandler P newWriter (post req)) r) :
    isAcceptance (validateHandler P newWriter (post { req with MarginClient := r })) r ∧
      ∀ (mc : F64) (side : String),
        marginRequiredOf
          (validateHandler P newWriter (post { req with MarginClient := mc, Side := side }))
          = some r := by
  cases hsel : selectAsset assets req.Asset with
  | none =>
    have hb := h.2
    rw [validateHandler_unknown P req hsel, httpError_body] at hb
    simp at hb
  | some a =>
    cases hl : validLeverage a.AllowedLeverage req.Leverage with
    | false =>
      have hb := h.2
      rw [validateHandler_badLeverage P req a hsel hl, httpError_body] at hb
      simp at hb
    | true =>
      have hr : roundCents P (rawMargin a req) = r := by
        rcases validateHandler_valid P req a hsel hl with h1 | h1
        · have hb := h.2
          rw [h1.2] at hb
          simpa using hb
        · have hb := h.2
          rw [h1.2] at hb
          simp at hb
      constructor
      · have hacc := isAcceptance_sufficient P { req with MarginClient := r } a hsel hl
          (by
            show F64.lt r (roundCents P (rawMargin a req)) = false
            rw [hr]
            exact F64.lt_irrefl _)
        have hsame : rawMargin a { req with MarginClient := r } = rawMargin a req := rfl
        rw [hsame, hr] at hacc
        exact hacc
      · intro mc side
        have hsame : rawMargin a { req with MarginClient := mc, Side := side }
            = rawMargin a req := rfl
        have hm := marginRequiredOf_valid P { req with MarginClient := mc, Side := side } a
          hsel hl
        rw [hsame, hr] at hm
        exact hm

/-- C7, at the BTC request of size 10 at leverage 10 rejected with a margin of 61.99: the
retry with 62 is accepted. -/
theorem retry_with_returned_margin_witness :
    isRejection
        (validateHandler amd64 newWriter
          (post { Asset := "BTC", OrderSize := F64.fin 10, Side := "buy",
                  Leverage := F64.fin 10, MarginClient := lit (6199 / 100) }))
        (F64.fin 62) ∧
      isAcceptance
        (validateHandler amd64 newWriter
          (post { Asset := "BTC", OrderSize := F64.fin 10, Side := "buy",
                  Leverage := F64.fin 10, MarginClient := F64.fin 62 }))
        (F64.fin 62) := by
  have hpass := @passes_validation
    { Asset := "BTC", OrderSize := F64.fin 10, Side := "buy", Leverage := F64.fin 10,
      MarginClient := lit (6199 / 100) }
    btc btc_mem rfl (by norm_num [btc])
  have hround : roundCents amd64 (rawMargin btc
      { Asset := "BTC", OrderSize := F64.fin 10, Side := "buy", Leverage := F64.fin 10,
        MarginClient := lit (6199 / 100) }) = F64.fin 62 := by
    rw [btc_ten_raw _ rfl rfl, btc_ten_round]
  have hrej := isRejection_insufficient amd64 _ btc hpass.1 hpass.2
    (by
      rw [hround]
      show F64.lt (lit (6199 / 100)) (F64.fin 62) = true
      rw [lit_sixty_one_ninety_nine]
      norm_num [F64.lt])
  rw [hround] at hrej
  exact ⟨hrej, (retry_with_returned_margin amd64 _ (F64.fin 62) hrej).1⟩

/-! ## Claims on the margin formula and its rounding -/

theorem roundCents_of_representable (P : Platform) {m : F64} {q : ℚ}
    (hy : scaleCents P m = F64.fin q)
    (hr : P.minInt ≤ truncate q ∧ truncate q ≤ P.maxInt) :
    roundCents P m = F64.div (ofInt (truncate q)) (F64.fin 100) := by
  simp only [roundCents, hy, toInt_of_representable P hr]

/-- C1 (amended). For a decoded POST request whose asset symbol is that of the catalog entry
`a` and whose leverage is allowed for `a`, let `y` be the binary64 value of `x * 100 + 0.5`,
with `x = markPrice * orderSize * contractValue / leverage` and every operation rounded to
binary64 (the product by 100 and the sum rounded once where the platform fuses them).  If `y`
is finite and its truncation toward zero is representable in an `int`, the response (an
acceptance or a rejection) carries the binary64 quotient `trunc y / 100`. -/
theorem margin_required_formula (P : Platform) (req : MarginRequest) (a : AssetConfig) (y : ℚ)
    (ha : a ∈ assets) (hs : a.Symbol = req.Asset) (hl : req.Leverage ∈ a.AllowedLeverage)
    (hy : scaleCents P
        (F64.div (F64.mul (F64.mul a.MarkPrice req.OrderSize) a.ContractValue) req.Leverage)
      = F64.fin y)
    (hr : P.minInt ≤ truncate y ∧ truncate y ≤ P.maxInt) :
    marginRequiredOf (validateHandler P newWriter (post req))
        = some (F64.div (ofInt (truncate y)) (F64.fin 100)) ∧
      (isAcceptance (validateHandler P newWriter (post req))
          (F64.div (ofInt (truncate y)) (F64.fin 100)) ∨
        isRejection (validateHandler P newWriter (post req))
          (F64.div (ofInt (truncate y)) (F64.fin 100))) := by
  obtain ⟨hsel, hv⟩ := passes_validation ha hs hl
  have hround : roundCents P (rawMargin a req)
      = F64.div (ofInt (truncate y)) (F64.fin 100) :=
    roundCents_of_representable P hy hr
  rcases validateHandler_valid P req a hsel hv with h | h
  · rw [hround] at h
    exact ⟨marginRequiredOf_of_isRejection h, Or.inr h⟩
  · rw [hround] at h
    exact ⟨marginRequiredOf_of_isAcceptance h, Or.inl h⟩

/-- C1 (amended), at the BTC request of size 10 at leverage 10: `y = 6200.5`, and the response
carries `float64(6200) / 100`, which is 62. -/
theorem margin_required_formula_witness :
    btc ∈ assets ∧ F64.fin 10 ∈ btc.AllowedLeverage ∧ truncate (12401 / 2) = 6200 ∧
      F64.div (ofInt 6200) (F64.fin 100) = F64.fin 62 ∧
      marginRequiredOf
          (validateHandler amd64 newWriter
            (post { Asset := "BTC", OrderSize := F64.fin 10, Side := "buy",
                    Leverage := F64.fin 10, MarginClient := F64.fin 62 }))
        = some (F64.div (ofInt (truncate (12401 / 2))) (F64.fin 100)) := by
  have ht : truncate (12401 / 2) = 6200 := by
    rw [truncate_of_nonneg (by norm_num), Int.floor_eq_iff]
    norm_num
  have hlev : F64.fin 10 ∈ btc.AllowedLeverage := by norm_num [btc]
  have hq : F64.div (ofInt 6200) (F64.fin 100) = F64.fin 62 := by
    have h := btc_ten_round amd64
    have hrep : amd64.minInt ≤ truncate (12401 / 2) ∧ truncate (12401 / 2) ≤ amd64.maxInt := by
      rw [ht]
      exact representable_of_small amd64 (by norm_num) (by norm_num)
    rw [roundCents_of_representable amd64 (btc_ten_scale amd64) hrep, ht] at h
    exact h
  refine ⟨btc_mem, hlev, ht, hq, ?_⟩
  exact (margin_required_formula amd64
    { Asset := "BTC", OrderSize := F64.fin 10, Side := "buy", Leverage := F64.fin 10,
      MarginClient := F64.fin 62 }
    btc (12401 / 2) btc_mem rfl hlev
    (by
      have h := btc_ten_scale amd64
      rw [← btc_ten_raw
        { Asset := "BTC", OrderSize := F64.fin 10, Side := "buy", Leverage := F64.fin 10,
          MarginClient := F64.fin 62 } rfl rfl] at h
      exact h)
    (by
      rw [ht]
      exact representable_of_small amd64 (by norm_num) (by norm_num))).1

/-- C1 as stated fails where the conversion to `int` overflows.  The ETH request of size
`10 ^ 18` at leverage 5 passes validation; `x = 6.4 * 10 ^ 18` and `x * 100 + 0.5` evaluates
to `6.4 * 10 ^ 20`, in exact and in binary64 arithmetic alike, so the claimed margin is
`6.4 * 10 ^ 18`; `6.4 * 10 ^ 20` exceeds the greatest `int`, and the response on `amd64`
carries `float64(-(2 ^ 63)) / 100 = -92233720368547760`. -/
theorem margin_required_formula_counterexample :
    eth ∈ assets ∧ eth.Symbol = "ETH" ∧ F64.fin 5 ∈ eth.AllowedLeverage ∧
      ((truncate ((3200 : ℚ) * 10 ^ 18 * (1 / 100) / 5 * 100 + 1 / 2) : Int) : ℚ) / 100
        = 6400000000000000000 ∧
      scaleCents amd64
          (rawMargin eth
            { Asset := "ETH", OrderSize := F64.fin (10 ^ 18), Side := "buy",
              Leverage := F64.fin 5, MarginClient := F64.fin 0 })
        = F64.fin 640000000000000000000 ∧
      truncate 640000000000000000000 = 640000000000000000000 ∧
      F64.div (ofInt 640000000000000000000) (F64.fin 100) = F64.fin 6400000000000000000 ∧
      amd64.maxInt < 640000000000000000000 ∧
      marginRequiredOf
          (validateHandler amd64 newWriter
            (post { Asset := "ETH", OrderSize := F64.fin (10 ^ 18), Side := "buy",
                    Leverage := F64.fin 5, MarginClient := F64.fin 0 }))
        = some (F64.fin (-92233720368547760)) ∧
      F64.fin (-92233720368547760) ≠ F64.fin 6400000000000000000 := by
  have hos : F64.fin ((10 : ℚ) ^ 18) = F64.fin 1000000000000000000 := by norm_num
  have hexact : ((truncate ((3200 : ℚ) * 10 ^ 18 * (1 / 100) / 5 * 100 + 1 / 2) : Int) : ℚ)
      / 100 = 6400000000000000000 := by
    have ht : truncate ((3200 : ℚ) * 10 ^ 18 * (1 / 100) / 5 * 100 + 1 / 2)
        = 640000000000000000000 := by
      rw [truncate_of_nonneg (by norm_num), Int.floor_eq_iff]
      norm_num
    rw [ht]
    norm_num
  have ht2 : truncate 640000000000000000000 = 640000000000000000000 := by
    rw [truncate_of_nonneg (by norm_num), Int.floor_eq_iff]
    norm_num
  have hraw : rawMargin eth
      { Asset := "ETH", OrderSize := F64.fin (10 ^ 18), Side := "buy", Leverage := F64.fin 5,
        MarginClient := F64.fin 0 } = F64.fin 6400000000000000000 :=
    eth_huge_raw _ hos rfl
  have hpass := @passes_validation
    { Asset := "ETH", OrderSize := F64.fin (10 ^ 18), Side := "buy", Leverage := F64.fin 5,
      MarginClient := F64.fin 0 }
    eth eth_mem rfl (by norm_num [eth])
  refine ⟨eth_mem, rfl, by norm_num [eth], hexact, ?_, ht2, eth_huge_claimed, ?_, ?_,
    by norm_num⟩
  · rw [hraw, eth_huge_scale amd64]
  · norm_num [Platform.maxInt, Platform.intBits, amd64]
  · rw [marginRequiredOf_valid amd64 _ eth hpass.1 hpass.2, hraw, eth_huge_round]

/-- C2 (amended). For a request that passes asset and leverage validation, let `y` be the
binary64 value of `marginRequired * 100 + 0.5`.  If `y` is finite and not negative and its
integer part `n` is representable in an `int`, the returned margin is the binary64 quotient
`n / 100` of a whole number of cents `n` with `n ≤ y < n + 1`; the request whose margin is
`0.125` is answered `0.13`; and when the order size is the binary64 value of a decimal
`o ≥ 0`, the returned margin `r` and the exact margin
`x = markPrice * o * contractValue / leverage` satisfy `|r - x| ≤ 0.005 + (x + 1) / 2 ^ 49`. -/
theorem round_half_up_nonneg (P : Platform) (req : MarginRequest) (a : AssetConfig) (y : ℚ)
    (ha : a ∈ assets) (hs : a.Symbol = req.Asset) (hl : req.Leverage ∈ a.AllowedLeverage)
    (hy : scaleCents P (rawMargin a req) = F64.fin y) (h0 : 0 ≤ y)
    (hr : P.minInt ≤ ⌊y⌋ ∧ ⌊y⌋ ≤ P.maxInt) :
    marginRequiredOf (validateHandler P newWriter (post req))
        = some (F64.div (ofInt ⌊y⌋) (F64.fin 100)) ∧
      0 ≤ ⌊y⌋ ∧ ((⌊y⌋ : Int) : ℚ) ≤ y ∧ y < ((⌊y⌋ : Int) : ℚ) + 1 ∧
      (rawMargin a req = F64.fin (1 / 8) →
        marginRequiredOf (validateHandler P newWriter (post req)) = some (lit (13 / 100))) ∧
      (∀ (d : DecimalConfig) (o L : ℚ), d ∈ decimalAssets → a = d.toFloat →
        L ∈ d.AllowedLeverage → req.Leverage = lit L → req.OrderSize = lit o → 0 ≤ o →
        ∃ r : ℚ, marginRequiredOf (validateHandler P newWriter (post req)) = some (F64.fin r) ∧
          |r - exactMargin d o L| ≤ 1 / 200 + (exactMargin d o L + 1) / 2 ^ 49) := by
  obtain ⟨hsel, hv⟩ := passes_validation ha hs hl
  have ht : truncate y = ⌊y⌋ := truncate_of_nonneg h0
  have hround : roundCents P (rawMargin a req) = F64.div (ofInt ⌊y⌋) (F64.fin 100) := by
    rw [roundCents_of_representable P hy (by rw [ht]; exact hr), ht]
  refine ⟨?_, Int.floor_nonneg.mpr h0, Int.floor_le y, Int.lt_floor_add_one y, ?_, ?_⟩
  · rw [marginRequiredOf_valid P req a hsel hv, hround]
  · intro hx
    rw [marginRequiredOf_valid P req a hsel hv, hx, eth_eighth_round, lit_thirteen_cents]
  · intro d o L hd had hL hlev hos ho
    subst had
    obtain ⟨r, hr1, hr2⟩ := roundCents_close P req d o L y hd hL hlev hos ho hy hr.2
    exact ⟨r, by rw [marginRequiredOf_valid P req d.toFloat hsel hv, hr1], hr2⟩

/-- C2 (amended), at the ETH request of size 5/256 at leverage 5, whose margin is 0.125:
`y = 13`, and the response carries 0.13. -/
theorem round_half_up_nonneg_witness :
    eth ∈ assets ∧ F64.fin 5 ∈ eth.AllowedLeverage ∧
      rawMargin eth
        { Asset := "ETH", OrderSize := F64.fin (5 / 256), Side := "buy",
          Leverage := F64.fin 5, MarginClient := F64.fin 1 } = F64.fin (1 / 8) ∧
      marginRequiredOf
          (validateHandler amd64 newWriter
            (post { Asset := "ETH", OrderSize := F64.fin (5 / 256), Side := "buy",
                    Leverage := F64.fin 5, MarginClient := F64.fin 1 }))
        = some (lit (13 / 100)) := by
  have hraw : rawMargin eth
      { Asset := "ETH", OrderSize := F64.fin (5 / 256), Side := "buy", Leverage := F64.fin 5,
        MarginClient := F64.fin 1 } = F64.fin (1 / 8) :=
    eth_eighth_raw _ rfl rfl
  have hfl : ⌊(13 : ℚ)⌋ = 13 := by
    rw [Int.floor_eq_iff]
    norm_num
  have h := round_half_up_nonneg amd64
    { Asset := "ETH", OrderSize := F64.fin (5 / 256), Side := "buy", Leverage := F64.fin 5,
      MarginClient := F64.fin 1 }
    eth 13 eth_mem rfl (by norm_num [eth])
    (by rw [hraw, eth_eighth_scale amd64])
    (by norm_num)
    (by
      rw [hfl]
      exact representable_of_small amd64 (by norm_num) (by norm_num))
  exact ⟨eth_mem, by norm_num [eth], hraw, h.2.2.2.2.1 hraw⟩

/-- C2 as stated fails in three ways.
For a negative order size: the ETH request of size `-1` at leverage 5 passes validation with
exact margin `x = -6.4`; the response carries the binary64 value of `-6.39`, which exceeds
`x + 0.005`, where `floor (100 * x + 1/2) / 100 = -6.40`.
At a tie: the BTC request of size `0.8125` at leverage 5 has exact margin `x = 10.075`, so
`floor (100 * x + 1/2) / 100 = 10.08`; in binary64 the margin is computed just below
`10.075`, and the response carries the binary64 value of `10.07`, which is below `x`.
Where the conversion to `int` overflows: the ETH request of size `10 ^ 18` at leverage 5 has
`x = 6.4 * 10 ^ 18`, and the response on `amd64` carries `-92233720368547760`. -/
theorem round_half_up_counterexample :
    (marginRequiredOf
          (validateHandler amd64 newWriter
            (post { Asset := "ETH", OrderSize := F64.fin (-1), Side := "sell",
                    Leverage := F64.fin 5, MarginClient := F64.fin 0 }))
        = some (F64.fin (-7194500404724367 / 1125899906842624)) ∧
      lit (-639 / 100) = F64.fin (-7194500404724367 / 1125899906842624) ∧
      (3200 : ℚ) * (-1) * (1 / 100) / 5 = -32 / 5 ∧
      ¬ ((-7194500404724367 / 1125899906842624 : ℚ) ≤ -32 / 5 + 1 / 200) ∧
      ((⌊100 * (-32 / 5 : ℚ) + 1 / 2⌋ : Int) : ℚ) / 100 = -640 / 100) ∧
    (marginRequiredOf
          (validateHandler amd64 newWriter
            (post { Asset := "BTC", OrderSize := F64.fin (13 / 16), Side := "buy",
                    Leverage := F64.fin 5, MarginClient := F64.fin 0 }))
        = some (F64.fin (1417226507738153 / 140737488355328)) ∧
      lit (1007 / 100) = F64.fin (1417226507738153 / 140737488355328) ∧
      (62000 : ℚ) * (13 / 16) * (1 / 1000) / 5 = 403 / 40 ∧
      ((⌊100 * (403 / 40 : ℚ) + 1 / 2⌋ : Int) : ℚ) / 100 = 1008 / 100 ∧
      (1417226507738153 / 140737488355328 : ℚ) < 403 / 40) ∧
    (marginRequiredOf
          (validateHandler amd64 newWriter
            (post { Asset := "ETH", OrderSize := F64.fin (10 ^ 18), Side := "buy",
                    Leverage := F64.fin 5, MarginClient := F64.fin 0 }))
        = some (F64.fin (-92233720368547760)) ∧
      (3200 : ℚ) * 10 ^ 18 * (1 / 100) / 5 = 6400000000000000000 ∧
      ¬ ((6400000000000000000 : ℚ) - 1 / 200 < -92233720368547760)) := by
  have hpass1 := @passes_validation
    { Asset := "ETH", OrderSize := F64.fin (-1), Side := "sell", Leverage := F64.fin 5,
      MarginClient := F64.fin 0 }
    eth eth_mem rfl (by norm_num [eth])
  have hpass2 := @passes_validation
    { Asset := "BTC", OrderSize := F64.fin (13 / 16), Side := "buy", Leverage := F64.fin 5,
      MarginClient := F64.fin 0 }
    btc btc_mem rfl (by norm_num [btc])
  have hpass3 := @passes_validation
    { Asset := "ETH", OrderSize := F64.fin (10 ^ 18), Side := "buy", Leverage := F64.fin 5,
      MarginClient := F64.fin 0 }
    eth eth_mem rfl (by norm_num [eth])
  have hos : F64.fin ((10 : ℚ) ^ 18) = F64.fin 1000000000000000000 := by norm_num
  have hfl1 : ⌊100 * (-32 / 5 : ℚ) + 1 / 2⌋ = -640 := by
    rw [Int.floor_eq_iff]
    norm_num
  have hfl2 : ⌊100 * (403 / 40 : ℚ) + 1 / 2⌋ = 1008 := by
    rw [Int.floor_eq_iff]
    norm_num
  refine ⟨⟨?_, lit_minus_six_thirty_nine, by norm_num, by norm_num, ?_⟩,
    ⟨?_, lit_ten_point_zero_seven, by norm_num, ?_, by norm_num⟩,
    ⟨?_, by norm_num, by norm_num⟩⟩
  · rw [marginRequiredOf_valid amd64 _ eth hpass1.1 hpass1.2, eth_neg_raw _ rfl rfl,
      eth_neg_round]
  · rw [hfl1]
    norm_num
  · rw [marginRequiredOf_valid amd64 _ btc hpass2.1 hpass2.2, btc_tie_raw _ rfl rfl,
      btc_tie_round]
  · rw [hfl2]
    norm_num
  · rw [marginRequiredOf_valid amd64 _ eth hpass3.1 hpass3.2, eth_huge_raw _ hos rfl,
      eth_huge_round]

end Margin
